import Mathlib

/-!
Verification of the semantic organization engine of a voice-journaling
application: vector math, k-means clustering over embeddings, clustering
lifecycle management, and hybrid (semantic + keyword) search.

Modelling conventions:
- JS numbers are modelled as real numbers; embedding vectors as lists of
  reals.
- JS null/undefined values are modelled with Option; a field that a SQL
  projection does not select is modelled as none on the row structure.
- Timestamps are modelled as integers; an invalid date (the result of
  constructing a Date from undefined) is modelled as none, and every
  comparison against it is false, as in JS.
- Asynchronous collaborator calls (embedding provider, LLM labeler,
  database fetches) are modelled by passing their outcome as an explicit
  Except-valued parameter; a JS function that throws is modelled as
  returning an Except error, and try/catch is modelled by matching on it.
- The k random distinct indices drawn by the centroid initialization loop
  are passed in as an explicit list parameter.
-/

noncomputable section

/-- Sum of squares of a list of reals, the accumulated normA and normB of
the cosineSimilarity loop in embeddingsService. -/
def sumSq (l : List ℝ) : ℝ := (l.map (fun x => x * x)).sum

/-- Model of cosineSimilarity from embeddingsService. Returns 0 when either
argument is absent (null/undefined) or the lengths differ; otherwise
dotProduct / (sqrt normA * sqrt normB), returning 0 when that denominator
is 0 rather than dividing. -/
def cosineSimilarity (a b : Option (List ℝ)) : ℝ :=
  match a, b with
  | some a, some b =>
    if a.length = b.length then
      let dotProduct := (List.zipWith (fun x y => x * y) a b).sum
      let denominator := Real.sqrt (sumSq a) * Real.sqrt (sumSq b)
      if denominator = 0 then 0 else dotProduct / denominator
    else 0
  | _, _ => 0

/-- Row of the journal_entries table. Nullable text columns are Options;
the embedding column, when present, is the JSON-parsed float array (the
round trip is assumed lossless). -/
structure JournalEntry where
  id : Nat
  created_at : Int
  mode : Option String := none
  name : Option String := none
  summary : Option String := none
  topics : Option String := none
  transcript : Option String := none
  embedding : Option (List ℝ) := none
  cluster_id : Option Nat := none

/-- Decides whether the needle list is an initial segment of the hay list. -/
def leadsWith : List Char → List Char → Bool
  | [], _ => true
  | _ :: _, [] => false
  | c :: cs, d :: ds => c = d && leadsWith cs ds

/-- Decides whether the needle occurs as a contiguous sublist of the hay,
the model of SQL LIKE with a percent wildcard on both sides (queries that
themselves contain LIKE metacharacters are outside this model). -/
def containsSub (needle : List Char) : List Char → Bool
  | [] => needle.isEmpty
  | c :: rest => leadsWith needle (c :: rest) || containsSub needle rest

/-- Model of the JS blank-query check (falsy or whitespace-only trims to
the empty string): every character is whitespace. -/
def jsBlank (s : String) : Bool := s.data.all Char.isWhitespace

/-- Model of toLowerCase / SQL LOWER, restricted to ASCII case mapping. -/
def jsToLower (s : String) : String := String.mk (s.data.map Char.toLower)

/-- Model of LOWER(field) LIKE searchTerm for a nullable column: a NULL
column never matches; otherwise case-insensitive substring containment.
The searchTerm argument is already lowercased, as in the JS code. -/
def likeMatch (field : Option String) (searchTerm : String) : Bool :=
  match field with
  | none => false
  | some s => containsSub searchTerm.data (jsToLower s).data

/-- The WHERE clause of performKeywordSearch: any of the four text fields
matches. -/
def anyFieldMatch (searchTerm : String) (e : JournalEntry) : Bool :=
  likeMatch e.transcript searchTerm || likeMatch e.summary searchTerm ||
    likeMatch e.name searchTerm || likeMatch e.topics searchTerm

/-- The CASE expression computing match_score: the single highest-tier
matching field wins (name=4, summary=3, topics=2, transcript=1, else 0). -/
def matchScore (searchTerm : String) (e : JournalEntry) : Nat :=
  if likeMatch e.name searchTerm then 4
  else if likeMatch e.summary searchTerm then 3
  else if likeMatch e.topics searchTerm then 2
  else if likeMatch e.transcript searchTerm then 1
  else 0

/-- Comparator of ORDER BY match_score DESC, created_at DESC. -/
def keywordLe (searchTerm : String) (a b : JournalEntry) : Bool :=
  decide (matchScore searchTerm b < matchScore searchTerm a ∨
    (matchScore searchTerm a = matchScore searchTerm b ∧ b.created_at ≤ a.created_at))

/-- A search-result row: the entry together with its normalized score.
The searchType tag of the JS object is kept; other decorations are
dropped. -/
structure Scored where
  entry : JournalEntry
  score : ℝ
  searchType : String

/-- The maxScore constant of performKeywordSearch: the maximum raw
match_score over the returned rows, 1 when no row matched. -/
def keywordMaxScore (searchTerm : String) (db : List JournalEntry) : Nat :=
  let results := (db.filter (anyFieldMatch searchTerm)).mergeSort (keywordLe searchTerm)
  if 0 < results.length then (results.map (matchScore searchTerm)).foldl max 0 else 1

/-- Model of performKeywordSearch from the search service: blank queries
return the empty list; otherwise rows matching any of the four fields are
ranked by match_score descending (ties by created_at descending) and the
scores are normalized by the maximum raw score of the returned rows. -/
def performKeywordSearch (query : String) (db : List JournalEntry) : List Scored :=
  if jsBlank query then []
  else
    let searchTerm := jsToLower query
    let results := (db.filter (anyFieldMatch searchTerm)).mergeSort (keywordLe searchTerm)
    results.map
      (fun e => ⟨e, (matchScore searchTerm e : ℝ) / (keywordMaxScore searchTerm db : ℝ), "keyword"⟩)

/-- Comparator of ORDER BY created_at DESC. -/
def createdDescLe (a b : JournalEntry) : Bool := decide (b.created_at ≤ a.created_at)

/-- Comparator of the JS sort by score descending. -/
def scoreDescLe (a b : Scored) : Bool := decide (b.score ≤ a.score)

/-- Model of performSemanticSearch: blank queries return the empty list;
a failure of the embedding provider (the outcome of generateEmbedding is
the provider argument) is caught and yields the empty list; otherwise
every stored entry that has an embedding is scored by cosine similarity
to the query embedding and the rows are sorted by score descending. -/
def performSemanticSearch (query : String) (queryEmbedding : Option (List ℝ))
    (provider : Except String (List ℝ)) (db : List JournalEntry) : List Scored :=
  if jsBlank query then []
  else
    match (match queryEmbedding with | some e => Except.ok e | none => provider) with
    | Except.error _ => []
    | Except.ok embedding =>
      let entries := (db.filter (fun e => e.embedding.isSome)).mergeSort createdDescLe
      if entries.length = 0 then []
      else
        let results := entries.map
          (fun e => Scored.mk e (cosineSimilarity (some embedding) e.embedding) "semantic")
        results.mergeSort scoreDescLe

/-- An entry of the results map built by combineResults. The score field
carries the score of the first leg that inserted the entry; fields that
the corresponding JS object lacks are 0. -/
structure CombinedResult where
  entry : JournalEntry
  score : ℝ
  semanticScore : ℝ
  keywordScore : ℝ
  combinedScore : ℝ

/-- Model of Map.set keyed by entry id: replaces in place when the key is
present, appends otherwise (JS Map iteration is in insertion order). -/
def mapSet (m : List CombinedResult) (v : CombinedResult) : List CombinedResult :=
  if m.any (fun x => x.entry.id = v.entry.id) then
    m.map (fun x => if x.entry.id = v.entry.id then v else x)
  else m ++ [v]

/-- Comparator of the JS sort by combinedScore descending. -/
def combinedDescLe (a b : CombinedResult) : Bool := decide (b.combinedScore ≤ a.combinedScore)

/-- Insertion of one semantic result into the results map: the full leg
score weighted, keyword score 0. -/
def semInsert (semanticWeight : ℝ) (m : List CombinedResult) (r : Scored) :
    List CombinedResult :=
  mapSet m ⟨r.entry, r.score, r.score, 0, r.score * semanticWeight⟩

/-- Merge of one keyword result into the results map: an entry already
present gets its keyword score and recombined score; a new entry is
appended with semantic score 0. -/
def kwMergeStep (semanticWeight keywordWeight : ℝ) (m : List CombinedResult)
    (r : Scored) : List CombinedResult :=
  if m.any (fun x => x.entry.id = r.entry.id) then
    m.map (fun x =>
      if x.entry.id = r.entry.id then
        { x with keywordScore := r.score,
                 combinedScore := x.semanticScore * semanticWeight +
                   r.score * keywordWeight }
      else x)
  else m ++ [⟨r.entry, r.score, 0, r.score, r.score * keywordWeight⟩]

/-- Model of combineResults: semantic results are inserted first with a
keyword score of 0; keyword results then either merge into an existing
entry (recomputing the combined score from both legs) or are appended with
a semantic score of 0; finally everything is sorted by combined score
descending. -/
def combineResults (semanticResults keywordResults : List Scored)
    (semanticWeight keywordWeight : ℝ) : List CombinedResult :=
  let afterSem := semanticResults.foldl (semInsert semanticWeight) []
  let afterKw := keywordResults.foldl (kwMergeStep semanticWeight keywordWeight)
    afterSem
  afterKw.mergeSort combinedDescLe

/-- Search options passed by a caller; absent fields fall back to
DEFAULT_CONFIG through the object spread. -/
structure SearchOptions where
  mode : Option String := none
  semanticWeight : Option ℝ := none
  keywordWeight : Option ℝ := none
  minScore : Option ℝ := none
  maxResults : Option Nat := none

/-- The merged configuration used by searchEntries. -/
structure SearchConfig where
  mode : String
  semanticWeight : ℝ
  keywordWeight : ℝ
  minScore : ℝ
  maxResults : Nat

/-- Merge of DEFAULT_CONFIG with the caller options. -/
def mergeConfig (o : SearchOptions) : SearchConfig :=
  ⟨o.mode.getD "hybrid", o.semanticWeight.getD 0.6, o.keywordWeight.getD 0.4,
    o.minScore.getD 0.1, o.maxResults.getD 50⟩

/-- Model of searchEntries: dispatches on the configured mode, with every
unrecognized mode falling into the hybrid default branch; filters the
results by the minimum combined score and truncates to maxResults when
that is nonzero (JS truthiness). The try/catch rethrows, so the result is
Except-valued, although no leg of the pipeline can throw. In semantic and
keyword modes the combined score is the raw leg score; the fields the JS
single-leg objects lack are 0 here. -/
def searchEntries (query : String) (o : SearchOptions)
    (provider : Except String (List ℝ)) (db : List JournalEntry) :
    Except String (List CombinedResult) :=
  let config := mergeConfig o
  if jsBlank query then Except.ok []
  else
    let results :=
      if config.mode = "semantic" then
        (performSemanticSearch query none provider db).map
          (fun r => CombinedResult.mk r.entry r.score 0 0 r.score)
      else if config.mode = "keyword" then
        (performKeywordSearch query db).map
          (fun r => CombinedResult.mk r.entry r.score 0 0 r.score)
      else
        combineResults (performSemanticSearch query none provider db)
          (performKeywordSearch query db) config.semanticWeight config.keywordWeight
    let filtered := results.filter (fun r => decide (config.minScore ≤ r.combinedScore))
    Except.ok (if config.maxResults ≠ 0 then filtered.take config.maxResults else filtered)

/-- Row returned by getEntriesForClustering: the SELECT projects only id,
transcript, summary and embedding (parsed from JSON) — crucially, NOT
created_at, so that field of the row object is undefined (none here). -/
structure ClusteringRow where
  id : Nat
  transcript : Option String := none
  summary : Option String := none
  embedding : List ℝ := []
  created_at : Option Int := none

/-- A cluster assignment produced by clusterEmbeddings. -/
structure ClusterAssignment where
  entryId : Nat
  clusterId : Nat
deriving DecidableEq

/-- Inner loop of the assignment step of clusterEmbeddings: walks the
remaining centroids from index j carrying the (bestCluster, bestSimilarity)
pair, replacing it on strictly greater similarity. -/
def assignOne (x : List ℝ) : List (List ℝ) → Nat → Nat × ℝ → Nat × ℝ
  | [], _, acc => acc
  | c :: rest, j, (best, bestSim) =>
    if bestSim < cosineSimilarity (some x) (some c) then
      assignOne x rest (j + 1) (j, cosineSimilarity (some x) (some c))
    else assignOne x rest (j + 1) (best, bestSim)

/-- Assignment of one embedding to the most similar centroid (first wins on
ties). With an empty centroid list (k = 0) the JS code computes the
similarity against an undefined centroid, which is 0, and keeps the
initial bestCluster 0. -/
def bestClusterFor (x : List ℝ) (centroids : List (List ℝ)) : Nat :=
  match centroids with
  | [] => 0
  | c0 :: rest => (assignOne x rest 1 (0, cosineSimilarity (some x) (some c0))).1

/-- One assignment pass over all embeddings, returning the updated
assignment array together with the changed flag (set exactly when some
entry got a new cluster). -/
def assignStep (embeddings centroids : List (List ℝ)) (assignments : List Nat) :
    List Nat × Bool :=
  let newA := embeddings.map (fun x => bestClusterFor x centroids)
  (newA, (assignments.zip newA).any (fun p => p.1 != p.2))

/-- The update step of clusterEmbeddings: a centroid with at least one
member becomes the element-wise sum of the embeddings of its members
divided by their count; a centroid with no members keeps its previous
value. -/
def updateCentroids (embeddings : List (List ℝ)) (assignments : List Nat)
    (centroids : List (List ℝ)) (dims : Nat) : List (List ℝ) :=
  centroids.mapIdx (fun j c =>
    let members := ((embeddings.zip assignments).filter (fun p => p.2 == j)).map
      (fun p => p.1)
    if 0 < members.length then
      (members.foldl (fun acc x => List.zipWith (fun u v => u + v) acc x)
          (List.replicate dims 0)).map (fun s => s / (members.length : ℝ))
    else c)

/-- Element-wise mean stated coordinate-wise, used to specify the update
step of clusterEmbeddings. -/
def meanVec (members : List (List ℝ)) (dims : Nat) : List ℝ :=
  (List.range dims).map
    (fun d => ((members.map (fun x => x.getD d 0)).sum) / (members.length : ℝ))

/-- The iteration loop of clusterEmbeddings with the remaining iteration
budget explicit: updates assignments, stops when nothing changed, and
otherwise recomputes centroids and continues. -/
def kmeansLoop (embeddings : List (List ℝ)) (dims : Nat) :
    Nat → List (List ℝ) → List Nat → List (List ℝ) × List Nat
  | 0, centroids, assignments => (centroids, assignments)
  | n + 1, centroids, assignments =>
    let step := assignStep embeddings centroids assignments
    if step.2 then
      kmeansLoop embeddings dims n
        (updateCentroids embeddings step.1 centroids dims) step.1
    else (centroids, step.1)

/-- Model of clusterEmbeddings (k-means with cosine similarity). The k
distinct random indices drawn by the initialization do-while loop are the
initIdx parameter. With fewer entries than clusters every entry is
assigned to cluster 0. Otherwise the code first reads the dimensionality
from the first embedding; on an empty entry list (reachable only with
k = 0, since the guard already caught N < k for every k of at least 1)
that read throws a TypeError, modelled as an error result. On a nonempty
list the head read is total and the iteration loop runs. -/
def clusterEmbeddings (initIdx : List Nat) (entries : List ClusteringRow)
    (k : Nat := 5) (maxIterations : Nat := 10) :
    Except String (List ClusterAssignment) :=
  if entries.length < k then Except.ok (entries.map (fun e => ⟨e.id, 0⟩))
  else if entries.isEmpty then
    Except.error "TypeError: embeddings[0] is undefined"
  else
    let embeddings := entries.map (fun e => e.embedding)
    let n := embeddings.length
    let dims := (embeddings.headD []).length
    let centroids := initIdx.map (fun idx => embeddings.getD idx [])
    let assignments := List.replicate n 0
    let final := kmeansLoop embeddings dims maxIterations centroids assignments
    Except.ok (entries.mapIdx (fun i e => ⟨e.id, final.2.getD i 0⟩))

/-- A smart_folders row. -/
structure SmartFolder where
  id : Nat
  name : String
  type : String
  cluster_id : Option Nat := none

/-- Typed view of the settings key-value store. Values are stored as
strings; cluster_count and cluster_threshold stand for the parseInt of the
stored string (none when the key is missing or its value is empty, since
getSetting turns a falsy stored value into null), last_clustering_date for
the parsed timestamp. -/
structure Settings where
  cluster_count : Option Nat := none
  cluster_threshold : Option Nat := none
  last_clustering_date : Option Int := none

/-- The persistent store: entry rows, smart folders, settings, and the id
the next created folder row receives. -/
structure Store where
  entries : List JournalEntry
  folders : List SmartFolder := []
  settings : Settings := {}
  nextFolderId : Nat := 0

/-- Model of getEntriesForClustering: SELECT id, transcript, summary,
embedding FROM journal_entries WHERE embedding IS NOT NULL, with the
embedding JSON-parsed. The created_at column is not selected, so that
field of every returned row is none (undefined on the JS object). -/
def getEntriesForClustering (store : Store) : List ClusteringRow :=
  (store.entries.filter (fun e => e.embedding.isSome)).map
    (fun e => { id := e.id, transcript := e.transcript, summary := e.summary,
                embedding := e.embedding.getD [], created_at := none })

/-- Comparison (new Date a) > (new Date b) where a may be undefined: an
invalid date compares false against everything, as in JS. -/
def jsDateGt (a : Option Int) (b : Int) : Bool :=
  match a with
  | none => false
  | some t => decide (b < t)

/-- Model of shouldTriggerClustering. With no stored last-clustering
timestamp, triggers once at least 5 embedded entries exist. Otherwise it
counts the fetched rows whose created_at parses to a date strictly after
the stored timestamp (but getEntriesForClustering never selects
created_at, so the field is undefined on every row) and compares the
count against the threshold (default 10). -/
def shouldTriggerClustering (store : Store) : Bool :=
  let clusterThreshold := (store.settings.cluster_threshold).getD 10
  match store.settings.last_clustering_date with
  | none => decide (5 ≤ (getEntriesForClustering store).length)
  | some lastDate =>
    let newEntries := (getEntriesForClustering store).filter
      (fun e => jsDateGt e.created_at lastDate)
    decide (clusterThreshold ≤ newEntries.length)

/-- Model of labelCluster: the outcome parameter is the result of the LLM
call (the trimmed label on success); any failure is caught and the
placeholder label is returned. -/
def labelCluster (outcome : Except String String) : String :=
  match outcome with
  | Except.ok label => label
  | Except.error _ => "Untitled Topic"

/-- Collaborator outcomes a regenerateClusters run can encounter: the k
random indices of the centroid initialization, the per-cluster outcome of
the LLM labelling call, whether fetching the entries throws, and the
per-cluster outcome of the folder INSERT. -/
structure RegenEnv where
  initIdx : List Nat := []
  labelOutcome : Nat → Except String String := fun _ => Except.ok "label"
  fetchOutcome : Except String Unit := Except.ok ()
  createFolderOutcome : Nat → Except String Unit := fun _ => Except.ok ()

/-- Model of updateEntryClusters: one UPDATE per assignment, setting the
cluster_id of the row with the matching id. -/
def updateEntryClusters (clusterAssignments : List ClusterAssignment)
    (store : Store) : Store :=
  clusterAssignments.foldl
    (fun st a =>
      { st with
          entries := st.entries.map (fun e =>
            if e.id = a.entryId then { e with cluster_id := some a.clusterId }
            else e) })
    store

/-- The folder-deletion loop of regenerateClusters: every folder of type
cluster is deleted. -/
def deleteClusterFolders (store : Store) : Store :=
  { store with folders := store.folders.filter (fun f => f.type != "cluster") }

/-- The clusterGroups object of regenerateClusters: JS object keys here
are integer-like, so Object.entries iterates them in ascending numeric
order; each group lists its member entry ids in assignment order. -/
def clusterGroups (clusterAssignments : List ClusterAssignment) :
    List (Nat × List Nat) :=
  ((clusterAssignments.map (fun a => a.clusterId)).dedup.mergeSort
      (fun a b => decide (a ≤ b))).map
    (fun j => (j, (clusterAssignments.filter (fun a => a.clusterId == j)).map
      (fun a => a.entryId)))

/-- The folder-creation loop of regenerateClusters: groups with fewer than
2 members are skipped; otherwise a label is generated (the placeholder on
labelling failure) and the folder inserted; a failing INSERT aborts the
loop and propagates the error, leaving already-created folders in place. -/
def createClusterFolders (env : RegenEnv) :
    List (Nat × List Nat) → Store → Store × Except String Unit
  | [], store => (store, Except.ok ())
  | (clusterId, entryIds) :: rest, store =>
    if entryIds.length < 2 then createClusterFolders env rest store
    else
      match env.createFolderOutcome clusterId with
      | Except.error e => (store, Except.error e)
      | Except.ok _ =>
        createClusterFolders env rest
          { store with
              folders := store.folders ++
                [⟨store.nextFolderId, labelCluster (env.labelOutcome clusterId),
                  "cluster", some clusterId⟩],
              nextFolderId := store.nextFolderId + 1 }

/-- Resolution of the numClusters argument of regenerateClusters: a falsy
argument (absent or 0) falls back to the cluster_count setting, default
5. -/
def resolveNumClusters (numClusters : Option Nat) (settings : Settings) : Nat :=
  match numClusters with
  | some v => if v = 0 then settings.cluster_count.getD 5 else v
  | none => settings.cluster_count.getD 5

/-- Model of regenerateClusters: fetch the embedded entries (a throwing
fetch propagates), silently no-op below 3 entries, cluster with
k = min(numClusters, floor(N/2)), write the per-entry cluster ids, delete
every cluster folder, recreate folders for groups of at least 2 members,
and finally advance last_clustering_date; the catch block rethrows, so a
failure anywhere surfaces while keeping the store changes made so far. -/
def regenerateClusters (env : RegenEnv) (numClusters : Option Nat) (now : Int)
    (store : Store) : Store × Except String Unit :=
  let nc := resolveNumClusters numClusters store.settings
  match env.fetchOutcome with
  | Except.error e => (store, Except.error e)
  | Except.ok _ =>
    let entries := getEntriesForClustering store
    if entries.length < 3 then (store, Except.ok ())
    else
      let k := min nc (entries.length / 2)
      match clusterEmbeddings env.initIdx entries k 10 with
      | Except.error e => (store, Except.error e)
      | Except.ok clusterAssignments =>
        let store1 := updateEntryClusters clusterAssignments store
        let store2 := deleteClusterFolders store1
        match createClusterFolders env (clusterGroups clusterAssignments) store2 with
        | (s, Except.error e) => (s, Except.error e)
        | (s, Except.ok _) =>
          ({ s with settings :=
              { s.settings with last_clustering_date := some now } },
            Except.ok ())

/-- The score an entry id has in a leg of the search: the score of the
(unique) result row with that entry id, or 0 when the leg does not contain
the entry. -/
def scoreOf (results : List Scored) (id : Nat) : ℝ :=
  ((results.find? (fun r => r.entry.id == id)).map (fun r => r.score)).getD 0

/-- Invariant of the result map maintained by the combineResults folds,
relative to the semantic leg and the processed prefix P of the keyword
leg: entry ids are unique; an id is present exactly when some leg carries
it; and every element holds the leg scores of its id with the weighted
combined score. -/
def CombineInv (sem P : List Scored) (semanticWeight keywordWeight : ℝ)
    (acc : List CombinedResult) : Prop :=
  (acc.map (fun c => c.entry.id)).Nodup ∧
  (∀ id : Nat, id ∈ acc.map (fun c => c.entry.id) ↔
    (id ∈ sem.map (fun r => r.entry.id) ∨ id ∈ P.map (fun r => r.entry.id))) ∧
  (∀ c ∈ acc, c.semanticScore = scoreOf sem c.entry.id ∧
    c.keywordScore = scoreOf P c.entry.id ∧
    c.combinedScore = c.semanticScore * semanticWeight +
      c.keywordScore * keywordWeight)

theorem sumSq_nonneg (l : List ℝ) : 0 ≤ sumSq l := by
  apply List.sum_nonneg
  intro x hx
  obtain ⟨y, _, rfl⟩ := List.mem_map.mp hx
  exact mul_self_nonneg y

/-- Cauchy-Schwarz for lists: the square of the truncating dot product is
bounded by the product of the sums of squares. -/
theorem list_cauchy_schwarz (a b : List ℝ) :
    ((List.zipWith (fun x y => x * y) a b).sum) ^ 2 ≤ sumSq a * sumSq b := by
  induction a generalizing b with
  | nil => simp [sumSq]
  | cons x xs ih =>
    cases b with
    | nil => simp [sumSq]
    | cons y ys =>
      have hA : 0 ≤ sumSq xs := sumSq_nonneg xs
      have hB : 0 ≤ sumSq ys := sumSq_nonneg ys
      have hd := ih ys
      simp only [List.zipWith_cons_cons, List.sum_cons, sumSq, List.map_cons] at *
      set S := (List.zipWith (fun x y => x * y) xs ys).sum with hS
      set A := (xs.map (fun x => x * x)).sum with hA'
      set B := (ys.map (fun x => x * x)).sum with hB'
      rcases eq_or_lt_of_le hA with hA0 | hApos
      · have hS0 : S = 0 := by
          have : S ^ 2 ≤ 0 := by
            calc S ^ 2 ≤ A * B := hd
            _ = 0 := by rw [← hA0]; ring
          nlinarith [sq_nonneg S]
        rw [← hA0, hS0]
        nlinarith [mul_nonneg (mul_self_nonneg x) hB]
      · nlinarith [sq_nonneg (S * x - y * A), mul_pos hApos hApos,
          mul_nonneg hA hB, sq_nonneg (x * y - S)]

/-- C3: cosineSimilarity terminates and returns a value in the interval
[-1, 1]; when either input is absent or the lengths differ it returns
exactly 0; when either vector has zero norm it returns exactly 0. -/
theorem cosineSimilarity_safe (a b : Option (List ℝ)) :
    (-1 ≤ cosineSimilarity a b ∧ cosineSimilarity a b ≤ 1) ∧
    (a = none ∨ b = none → cosineSimilarity a b = 0) ∧
    (∀ la lb, a = some la → b = some lb → la.length ≠ lb.length →
      cosineSimilarity a b = 0) ∧
    (∀ la lb, a = some la → b = some lb →
      sumSq la = 0 ∨ sumSq lb = 0 → cosineSimilarity a b = 0) := by
  refine ⟨?_, ?_, ?_, ?_⟩
  · match a, b with
    | none, _ => simp [cosineSimilarity]
    | some la, none => simp [cosineSimilarity]
    | some la, some lb =>
      simp only [cosineSimilarity]
      by_cases hlen : la.length = lb.length
      · simp only [hlen, if_true]
        by_cases hden : Real.sqrt (sumSq la) * Real.sqrt (sumSq lb) = 0
        · simp [hden]
        · simp only [hden, if_false]
          have hden_nonneg : 0 ≤ Real.sqrt (sumSq la) * Real.sqrt (sumSq lb) :=
            mul_nonneg (Real.sqrt_nonneg _) (Real.sqrt_nonneg _)
          have hden_pos : 0 < Real.sqrt (sumSq la) * Real.sqrt (sumSq lb) :=
            lt_of_le_of_ne hden_nonneg (Ne.symm hden)
          have hsq : (Real.sqrt (sumSq la) * Real.sqrt (sumSq lb)) ^ 2
              = sumSq la * sumSq lb := by
            rw [mul_pow, Real.sq_sqrt (sumSq_nonneg la), Real.sq_sqrt (sumSq_nonneg lb)]
          have hcs := list_cauchy_schwarz la lb
          constructor
          · rw [neg_le, ← neg_div, div_le_one hden_pos]
            nlinarith [hcs, hsq, hden_pos]
          · rw [div_le_one hden_pos]
            nlinarith [hcs, hsq, hden_pos]
      · simp [hlen]
  · rintro (rfl | rfl)
    · simp [cosineSimilarity]
    · match a with
      | none => simp [cosineSimilarity]
      | some la => simp [cosineSimilarity]
  · rintro la lb rfl rfl hlen
    simp [cosineSimilarity, hlen]
  · rintro la lb rfl rfl hz
    simp only [cosineSimilarity]
    by_cases hlen : la.length = lb.length
    · have hden : Real.sqrt (sumSq la) * Real.sqrt (sumSq lb) = 0 := by
        rcases hz with hz | hz
        · rw [hz, Real.sqrt_zero, zero_mul]
        · rw [hz, Real.sqrt_zero, mul_zero]
      simp [hlen, hden]
    · simp [hlen]

/-- Witness for C3: concrete evaluations through the theorem. -/
theorem cosineSimilarity_safe_witness :
    cosineSimilarity (some [(1 : ℝ), 0]) none = 0 ∧
    cosineSimilarity (some [(1 : ℝ), 0]) (some [(2 : ℝ)]) = 0 ∧
    cosineSimilarity (some [(0 : ℝ), 0]) (some [(3 : ℝ), 4]) = 0 ∧
    cosineSimilarity (some [(1 : ℝ), 0]) (some [(0 : ℝ), 1]) ≤ 1 :=
  ⟨(cosineSimilarity_safe _ _).2.1 (Or.inr rfl),
   (cosineSimilarity_safe _ _).2.2.1 [(1 : ℝ), 0] [(2 : ℝ)] rfl rfl (by decide),
   (cosineSimilarity_safe _ _).2.2.2 [(0 : ℝ), 0] [(3 : ℝ), 4] rfl rfl
     (Or.inl (by simp [sumSq])),
   ((cosineSimilarity_safe _ _).1).2⟩

theorem init_le_foldl_max (l : List Nat) : ∀ a : Nat, a ≤ l.foldl max a := by
  induction l with
  | nil => intro a; simp
  | cons x xs ih => intro a; exact le_trans (le_max_left a x) (ih (max a x))

theorem mem_le_foldl_max (l : List Nat) : ∀ (a : Nat), ∀ x ∈ l, x ≤ l.foldl max a := by
  induction l with
  | nil => intro a x hx; cases hx
  | cons y ys ih =>
    intro a x hx
    rcases List.mem_cons.mp hx with rfl | hx
    · exact le_trans (le_max_right a x) (init_le_foldl_max ys (max a x))
    · exact ih (max a y) x hx

theorem foldl_max_mem (l : List Nat) : ∀ a : Nat, l.foldl max a = a ∨ l.foldl max a ∈ l := by
  induction l with
  | nil => intro a; exact Or.inl rfl
  | cons y ys ih =>
    intro a
    rw [List.foldl_cons]
    rcases ih (max a y) with h | h
    · rw [h]
      rcases Nat.le_total a y with hy | hy
      · rw [max_eq_right hy]
        exact Or.inr (List.mem_cons_self y ys)
      · rw [max_eq_left hy]
        exact Or.inl rfl
    · exact Or.inr (List.mem_cons_of_mem y h)

theorem anyFieldMatch_iff (st : String) (e : JournalEntry) :
    anyFieldMatch st e = true ↔ 1 ≤ matchScore st e := by
  unfold anyFieldMatch matchScore
  cases likeMatch e.name st <;> cases likeMatch e.summary st <;>
    cases likeMatch e.topics st <;> cases likeMatch e.transcript st <;> simp

theorem keywordLe_trans (st : String) : ∀ a b c : JournalEntry,
    keywordLe st a b = true → keywordLe st b c = true → keywordLe st a c = true := by
  intro a b c h1 h2
  simp only [keywordLe, decide_eq_true_eq] at h1 h2 ⊢
  omega

theorem keywordLe_total (st : String) : ∀ a b : JournalEntry,
    (keywordLe st a b || keywordLe st b a) = true := by
  intro a b
  simp only [keywordLe, Bool.or_eq_true, decide_eq_true_eq]
  omega

/-- C9: for a non-blank query, keyword search returns the empty list
exactly when no row matches; otherwise each returned row is scored by the
single highest-tier matching field (name=4, summary=3, topics=2,
transcript=1, never a sum) divided by the maximum raw score among the
returned rows, so every score lies in (0, 1]; the list is sorted by score
descending; and an entry matching only in name outranks an entry matching
only in transcript, both by score and by position. -/
theorem performKeywordSearch_spec (query : String) (db : List JournalEntry)
    (hq : jsBlank query = false) :
    (performKeywordSearch query db = [] ↔
      ∀ e ∈ db, anyFieldMatch (jsToLower query) e = false) ∧
    List.Sorted (fun a b : Scored => b.score ≤ a.score) (performKeywordSearch query db) ∧
    (∀ r ∈ performKeywordSearch query db,
      r.score = (matchScore (jsToLower query) r.entry : ℝ) /
          (keywordMaxScore (jsToLower query) db : ℝ) ∧
        0 < r.score ∧ r.score ≤ 1) ∧
    (∀ r ∈ performKeywordSearch query db,
      matchScore (jsToLower query) r.entry ≤ keywordMaxScore (jsToLower query) db) ∧
    (performKeywordSearch query db ≠ [] →
      ∃ r ∈ performKeywordSearch query db,
        matchScore (jsToLower query) r.entry = keywordMaxScore (jsToLower query) db) ∧
    (∀ e : JournalEntry,
      (likeMatch e.name (jsToLower query) = true → matchScore (jsToLower query) e = 4) ∧
      (likeMatch e.name (jsToLower query) = false →
        likeMatch e.summary (jsToLower query) = true → matchScore (jsToLower query) e = 3) ∧
      (likeMatch e.name (jsToLower query) = false →
        likeMatch e.summary (jsToLower query) = false →
        likeMatch e.topics (jsToLower query) = true → matchScore (jsToLower query) e = 2) ∧
      (likeMatch e.name (jsToLower query) = false →
        likeMatch e.summary (jsToLower query) = false →
        likeMatch e.topics (jsToLower query) = false →
        likeMatch e.transcript (jsToLower query) = true →
        matchScore (jsToLower query) e = 1)) ∧
    (∀ a b, a ∈ performKeywordSearch query db → b ∈ performKeywordSearch query db →
      likeMatch a.entry.name (jsToLower query) = true →
      likeMatch b.entry.name (jsToLower query) = false →
      likeMatch b.entry.summary (jsToLower query) = false →
      likeMatch b.entry.topics (jsToLower query) = false →
      likeMatch b.entry.transcript (jsToLower query) = true →
      b.score < a.score ∧
      ∀ i j (hi : i < (performKeywordSearch query db).length)
          (hj : j < (performKeywordSearch query db).length),
        (performKeywordSearch query db).get ⟨i, hi⟩ = a →
        (performKeywordSearch query db).get ⟨j, hj⟩ = b → i < j) := by
  set st := jsToLower query with hst
  set results := (db.filter (anyFieldMatch st)).mergeSort (keywordLe st) with hres
  have hout : performKeywordSearch query db =
      results.map (fun e =>
        ⟨e, (matchScore st e : ℝ) / (keywordMaxScore st db : ℝ), "keyword"⟩) := by
    rw [performKeywordSearch, hq]
    simp only [Bool.false_eq_true, if_false]
  have hmem : ∀ e, e ∈ results ↔ (e ∈ db ∧ anyFieldMatch st e = true) := by
    intro e
    rw [hres, List.mem_mergeSort, List.mem_filter]
  have hMeq : results ≠ [] →
      keywordMaxScore st db = (results.map (matchScore st)).foldl max 0 := by
    intro hne
    rw [keywordMaxScore, ← hres]
    have : 0 < results.length := List.length_pos.mpr hne
    simp only [this, if_true]
  have hM_ge : ∀ e ∈ results, matchScore st e ≤ keywordMaxScore st db := by
    intro e he
    rw [hMeq (List.ne_nil_of_mem he)]
    exact mem_le_foldl_max _ 0 _ (List.mem_map_of_mem _ he)
  have hM_pos : ∀ e ∈ results, 0 < keywordMaxScore st db := by
    intro e he
    have h1 : 1 ≤ matchScore st e := (anyFieldMatch_iff st e).mp ((hmem e).mp he).2
    exact lt_of_lt_of_le h1 (hM_ge e he)
  have hsorted : List.Pairwise (fun a b => keywordLe st a b = true) results := by
    rw [hres]
    exact List.sorted_mergeSort (keywordLe_trans st) (keywordLe_total st) _
  have hscore_le : ∀ a b : JournalEntry, keywordLe st a b = true →
      (matchScore st b : ℝ) / (keywordMaxScore st db : ℝ) ≤
        (matchScore st a : ℝ) / (keywordMaxScore st db : ℝ) := by
    intro a b hab
    have hle : matchScore st b ≤ matchScore st a := by
      simp only [keywordLe, decide_eq_true_eq] at hab
      omega
    rcases Nat.eq_zero_or_pos (keywordMaxScore st db) with h0 | hpos
    · rw [h0]; simp
    · have hposR : (0 : ℝ) < (keywordMaxScore st db : ℝ) := by exact_mod_cast hpos
      exact (div_le_div_iff_of_pos_right hposR).mpr (by exact_mod_cast hle)
  have houtsorted :
      List.Sorted (fun a b : Scored => b.score ≤ a.score) (performKeywordSearch query db) := by
    rw [hout, List.Sorted, List.pairwise_map]
    exact hsorted.imp (fun {a b} hab => hscore_le a b hab)
  refine ⟨?_, houtsorted, ?_, ?_, ?_, ?_, ?_⟩
  · rw [hout]
    constructor
    · intro h e he
      have hresnil : results = [] := List.map_eq_nil.mp h
      have : db.filter (anyFieldMatch st) = [] := by
        have hp := List.mergeSort_perm (db.filter (anyFieldMatch st)) (keywordLe st)
        rw [← hres, hresnil] at hp
        exact (List.Perm.nil_eq hp).symm
      have := List.filter_eq_nil.mp this e he
      simpa using this
    · intro h
      apply List.map_eq_nil.mpr
      rw [hres]
      have : db.filter (anyFieldMatch st) = [] := by
        apply List.filter_eq_nil.mpr
        intro e he
        simp [h e he]
      rw [this, List.mergeSort_nil]
  · intro r hr
    rw [hout] at hr
    obtain ⟨e, he, rfl⟩ := List.mem_map.mp hr
    refine ⟨rfl, ?_, ?_⟩
    · apply div_pos
      · have h1 : 1 ≤ matchScore st e := (anyFieldMatch_iff st e).mp ((hmem e).mp he).2
        exact_mod_cast lt_of_lt_of_le one_pos h1
      · exact_mod_cast hM_pos e he
    · rw [div_le_one (by exact_mod_cast hM_pos e he)]
      exact_mod_cast hM_ge e he
  · intro r hr
    rw [hout] at hr
    obtain ⟨e, he, rfl⟩ := List.mem_map.mp hr
    exact hM_ge e he
  · intro hne
    rw [hout] at hne
    have hresne : results ≠ [] := fun h => hne (by rw [h]; rfl)
    rw [hMeq hresne]
    rcases foldl_max_mem (results.map (matchScore st)) 0 with h | h
    · exfalso
      obtain ⟨e, he⟩ := List.exists_mem_of_ne_nil results hresne
      have h1 : 1 ≤ matchScore st e := (anyFieldMatch_iff st e).mp ((hmem e).mp he).2
      have h2 := mem_le_foldl_max (results.map (matchScore st)) 0 _ (List.mem_map_of_mem _ he)
      omega
    · obtain ⟨e, he, heq⟩ := List.mem_map.mp h
      refine ⟨⟨e, (matchScore st e : ℝ) / (keywordMaxScore st db : ℝ), "keyword"⟩, ?_, ?_⟩
      · rw [hout]
        exact List.mem_map_of_mem _ he
      · rw [hMeq hresne]
        exact heq
  · intro e
    refine ⟨?_, ?_, ?_, ?_⟩ <;> intros <;> simp_all [matchScore]
  · intro a b ha hb hname hbn hbs hbt hbtr
    rw [hout] at ha hb
    obtain ⟨ea, hea, rfl⟩ := List.mem_map.mp ha
    obtain ⟨eb, heb, rfl⟩ := List.mem_map.mp hb
    have hmsa : matchScore st ea = 4 := by simp_all [matchScore]
    have hmsb : matchScore st eb = 1 := by simp_all [matchScore]
    have hMpos : (0 : ℝ) < (keywordMaxScore st db : ℝ) := by
      exact_mod_cast hM_pos ea hea
    have hlt : ((⟨eb, (matchScore st eb : ℝ) / (keywordMaxScore st db : ℝ), "keyword"⟩ :
        Scored)).score <
        ((⟨ea, (matchScore st ea : ℝ) / (keywordMaxScore st db : ℝ), "keyword"⟩ :
        Scored)).score := by
      simp only [hmsa, hmsb]
      exact (div_lt_div_iff_of_pos_right hMpos).mpr (by norm_num)
    refine ⟨hlt, ?_⟩
    intro i j hi hj hgi hgj
    by_contra hij
    push_neg at hij
    rcases Nat.lt_or_ge j i with hji | hji
    · have := List.pairwise_iff_get.mp houtsorted ⟨j, hj⟩ ⟨i, hi⟩ hji
      rw [hgi, hgj] at this
      exact absurd this (not_le.mpr hlt)
    · have : i = j := le_antisymm hji hij
      subst this
      rw [hgi] at hgj
      rw [hgj] at hlt
      exact lt_irrefl _ hlt

/-- Witness for C9: a concrete database where one entry matches the query
in the name field only and another in the transcript field only. -/
theorem performKeywordSearch_spec_witness :
    jsBlank "work" = false ∧
    List.Sorted (fun a b : Scored => b.score ≤ a.score)
      (performKeywordSearch "work"
        [⟨1, 10, none, some "Work stuff", none, none, none, none, none⟩,
         ⟨2, 5, none, none, none, none, some "hard work", none, none⟩]) :=
  ⟨by decide,
   (performKeywordSearch_spec "work"
     [⟨1, 10, none, some "Work stuff", none, none, none, none, none⟩,
      ⟨2, 5, none, none, none, none, some "hard work", none, none⟩] (by decide)).2.1⟩

theorem assignOne_lt (x : List ℝ) : ∀ (cs : List (List ℝ)) (j : Nat) (acc : Nat × ℝ)
    (m : Nat), acc.1 < m → j + cs.length ≤ m → (assignOne x cs j acc).1 < m := by
  intro cs
  induction cs with
  | nil =>
    intro j acc m h1 _
    simpa [assignOne] using h1
  | cons c rest ih =>
    intro j acc m h1 h2
    obtain ⟨best, bestSim⟩ := acc
    simp only [List.length_cons] at h2
    simp only [assignOne]
    split
    · exact ih (j + 1) (j, _) m (by simp; omega) (by omega)
    · exact ih (j + 1) (best, bestSim) m h1 (by omega)

theorem assignOne_spec (x : List ℝ) : ∀ (cs : List (List ℝ)) (j best : Nat) (bs : ℝ),
    bs ≤ (assignOne x cs j (best, bs)).2 ∧
    (∀ c ∈ cs, cosineSimilarity (some x) (some c) ≤ (assignOne x cs j (best, bs)).2) ∧
    ((assignOne x cs j (best, bs)).1 = best ∧ (assignOne x cs j (best, bs)).2 = bs ∨
      ∃ m, m < cs.length ∧ (assignOne x cs j (best, bs)).1 = j + m ∧
        (assignOne x cs j (best, bs)).2 =
          cosineSimilarity (some x) (some (cs.getD m []))) := by
  intro cs
  induction cs with
  | nil =>
    intro j best bs
    simp [assignOne]
  | cons c rest ih =>
    intro j best bs
    simp only [assignOne]
    split
    · rename_i h
      obtain ⟨h1, h2, h3⟩ := ih (j + 1) j (cosineSimilarity (some x) (some c))
      refine ⟨le_trans (le_of_lt h) h1, ?_, ?_⟩
      · intro d hd
        rcases List.mem_cons.mp hd with rfl | hd
        · exact h1
        · exact h2 d hd
      · rcases h3 with ⟨hb, hs⟩ | ⟨m, hm, hb, hs⟩
        · exact Or.inr ⟨0, by simp, by rw [hb]; omega, by simpa using hs⟩
        · exact Or.inr ⟨m + 1, by simp; omega, by rw [hb]; omega, by simpa using hs⟩
    · rename_i h
      obtain ⟨h1, h2, h3⟩ := ih (j + 1) best bs
      refine ⟨h1, ?_, ?_⟩
      · intro d hd
        rcases List.mem_cons.mp hd with rfl | hd
        · exact le_trans (not_lt.mp h) h1
        · exact h2 d hd
      · rcases h3 with ⟨hb, hs⟩ | ⟨m, hm, hb, hs⟩
        · exact Or.inl ⟨hb, hs⟩
        · exact Or.inr ⟨m + 1, by simp; omega, by rw [hb]; omega, by simpa using hs⟩

theorem bestClusterFor_spec (x : List ℝ) (centroids : List (List ℝ)) :
    ∀ j, j < centroids.length →
      cosineSimilarity (some x) (some (centroids.getD j [])) ≤
        cosineSimilarity (some x)
          (some (centroids.getD (bestClusterFor x centroids) [])) := by
  intro j hj
  cases centroids with
  | nil => simp at hj
  | cons c0 rest =>
    obtain ⟨h1, h2, h3⟩ := assignOne_spec x rest 1 0 (cosineSimilarity (some x) (some c0))
    have hsim : cosineSimilarity (some x)
        (some ((c0 :: rest).getD (bestClusterFor x (c0 :: rest)) [])) =
        (assignOne x rest 1 (0, cosineSimilarity (some x) (some c0))).2 := by
      rcases h3 with ⟨hb, hs⟩ | ⟨m, hm, hb, hs⟩
      · simp only [bestClusterFor, hb, List.getD_cons_zero]
        exact hs.symm
      · simp only [bestClusterFor, hb]
        rw [Nat.add_comm 1 m, List.getD_cons_succ]
        exact hs.symm
    rw [hsim]
    rcases j with _ | j
    · simpa using h1
    · rw [List.getD_cons_succ]
      apply h2
      rw [List.getD_eq_getElem _ _ (by simpa using Nat.lt_of_succ_lt_succ hj)]
      exact List.getElem_mem _

theorem bestClusterFor_lt (x : List ℝ) (centroids : List (List ℝ))
    (h : centroids ≠ []) : bestClusterFor x centroids < centroids.length := by
  cases centroids with
  | nil => exact absurd rfl h
  | cons c0 rest =>
    simp only [bestClusterFor, List.length_cons]
    exact assignOne_lt x rest 1 (0, _) (rest.length + 1) (by omega) (by omega)

theorem zip_any_ne_iff : ∀ (l1 l2 : List Nat), l1.length = l2.length →
    (((l1.zip l2).any (fun p => p.1 != p.2)) = false ↔ l2 = l1) := by
  intro l1
  induction l1 with
  | nil =>
    intro l2 h
    cases l2 with
    | nil => simp
    | cons b t2 => simp at h
  | cons a t ih =>
    intro l2 h
    cases l2 with
    | nil => simp at h
    | cons b t2 =>
      have ht := ih t2 (by simpa using h)
      simp only [List.zip_cons_cons, List.any_cons, Bool.or_eq_false_iff, bne_eq_false_iff_eq]
      rw [ht]
      constructor
      · rintro ⟨rfl, rfl⟩
        rfl
      · intro hcons
        have h1 : b = a := (List.cons.injEq .. ▸ hcons).1
        have h2 : t2 = t := (List.cons.injEq .. ▸ hcons).2
        exact ⟨h1.symm, h2⟩

theorem kmeansLoop_inv (embeddings : List (List ℝ)) (dims k : Nat) (hk : 1 ≤ k) :
    ∀ (fuel : Nat) (centroids : List (List ℝ)) (assignments : List Nat),
      centroids.length = k →
      (∀ v ∈ assignments, v < k) →
      assignments.length = embeddings.length →
      (∀ v ∈ (kmeansLoop embeddings dims fuel centroids assignments).2, v < k) ∧
      (kmeansLoop embeddings dims fuel centroids assignments).2.length =
        embeddings.length := by
  intro fuel
  induction fuel with
  | zero =>
    intro centroids assignments _ hv hlen
    exact ⟨hv, hlen⟩
  | succ n ih =>
    intro centroids assignments hc hv hlen
    have hne : centroids ≠ [] := by
      intro hnil
      rw [hnil] at hc
      simp at hc
      omega
    have hstep1 : ∀ v ∈ (assignStep embeddings centroids assignments).1, v < k := by
      intro v hvmem
      simp only [assignStep] at hvmem
      obtain ⟨x, _, rfl⟩ := List.mem_map.mp hvmem
      rw [← hc]
      exact bestClusterFor_lt x centroids hne
    have hstep1len : (assignStep embeddings centroids assignments).1.length =
        embeddings.length := by
      simp [assignStep]
    simp only [kmeansLoop]
    split
    · exact ih (updateCentroids embeddings (assignStep embeddings centroids assignments).1
        centroids dims) (assignStep embeddings centroids assignments).1
        (by simp [updateCentroids, List.length_mapIdx, hc]) hstep1 hstep1len
    · exact ⟨hstep1, hstep1len⟩

theorem self_eq_range_map_getD : ∀ (l : List ℝ),
    (List.range l.length).map (fun d => l.getD d 0) = l := by
  intro l
  induction l with
  | nil => rfl
  | cons a t ih =>
    rw [List.length_cons, List.range_succ_eq_map]
    simp only [List.map_cons, List.getD_cons_zero, List.map_map]
    have hcomp : ((fun d => (a :: t).getD d 0) ∘ Nat.succ) = fun d => t.getD d 0 := by
      funext d
      simp [List.getD_cons_succ]
    rw [hcomp, ih]

theorem zipWith_add_getD (acc x : List ℝ) (d : Nat) (h1 : d < acc.length)
    (h2 : d < x.length) :
    (List.zipWith (fun u v => u + v) acc x).getD d 0 = acc.getD d 0 + x.getD d 0 := by
  have hlt : d < (List.zipWith (fun u v => u + v) acc x).length := by
    rw [List.length_zipWith]
    exact lt_min h1 h2
  rw [List.getD_eq_getElem _ _ hlt, List.getElem_zipWith,
    List.getD_eq_getElem _ _ h1, List.getD_eq_getElem _ _ h2]

theorem foldl_zipWith_sum (members : List (List ℝ)) : ∀ (acc : List ℝ),
    (∀ x ∈ members, x.length = acc.length) →
    members.foldl (fun a x => List.zipWith (fun u v => u + v) a x) acc =
      (List.range acc.length).map
        (fun d => acc.getD d 0 + (members.map (fun x => x.getD d 0)).sum) := by
  induction members with
  | nil =>
    intro acc _
    simp only [List.foldl_nil, List.map_nil, List.sum_nil, add_zero]
    exact (self_eq_range_map_getD acc).symm
  | cons x xs ih =>
    intro acc hlen
    have hx : x.length = acc.length := hlen x (List.mem_cons_self x xs)
    have hzlen : (List.zipWith (fun u v => u + v) acc x).length = acc.length := by
      rw [List.length_zipWith, hx]
      exact min_self _
    rw [List.foldl_cons,
      ih (List.zipWith (fun u v => u + v) acc x)
        (fun y hy => by rw [hlen y (List.mem_cons_of_mem x hy), ← hzlen]),
      hzlen]
    apply List.map_congr_left
    intro d hd
    have hdlt : d < acc.length := List.mem_range.mp hd
    rw [zipWith_add_getD acc x d hdlt (by omega)]
    simp only [List.map_cons, List.sum_cons]
    ring

theorem updateCentroids_spec (embeddings : List (List ℝ)) (assignments : List Nat)
    (centroids : List (List ℝ)) (dims : Nat)
    (hdims : ∀ x ∈ embeddings, x.length = dims) :
    ∀ j (hj : j < centroids.length),
      (0 < (((embeddings.zip assignments).filter (fun p => p.2 == j)).map
          (fun p => p.1)).length →
        (updateCentroids embeddings assignments centroids dims).getD j [] =
          meanVec (((embeddings.zip assignments).filter (fun p => p.2 == j)).map
            (fun p => p.1)) dims) ∧
      ((((embeddings.zip assignments).filter (fun p => p.2 == j)).map
          (fun p => p.1)).length = 0 →
        (updateCentroids embeddings assignments centroids dims).getD j [] =
          centroids.get ⟨j, hj⟩) := by
  intro j hj
  have hulen : (updateCentroids embeddings assignments centroids dims).length =
      centroids.length := by
    simp [updateCentroids, List.length_mapIdx]
  have hjd : j < (updateCentroids embeddings assignments centroids dims).length := by
    rw [hulen]
    exact hj
  have hmem_len : ∀ x ∈ ((embeddings.zip assignments).filter
      (fun p => p.2 == j)).map (fun p => p.1), x.length = dims := by
    intro x hx
    obtain ⟨p, hp, rfl⟩ := List.mem_map.mp hx
    have hpz := List.mem_filter.mp hp
    obtain ⟨p1, p2⟩ := p
    exact hdims p1 (List.mem_zip hpz.1).1
  constructor
  · intro hpos
    rw [List.getD_eq_getElem _ _ hjd]
    simp only [updateCentroids, List.getElem_mapIdx]
    rw [if_pos hpos,
      foldl_zipWith_sum _ (List.replicate dims 0)
        (fun y hy => by rw [hmem_len y hy, List.length_replicate]),
      List.length_replicate, List.map_map]
    apply List.map_congr_left
    intro d hd
    have hrep0 : (List.replicate dims (0 : ℝ)).getD d 0 = 0 := by
      rw [List.getD_eq_getElem _ _ (by
        rw [List.length_replicate]
        exact List.mem_range.mp hd)]
      simp
    simp only [Function.comp_apply, hrep0, zero_add, meanVec]
  · intro hzero
    rw [List.getD_eq_getElem _ _ hjd]
    simp only [updateCentroids, List.getElem_mapIdx]
    rw [if_neg (by omega)]
    simp

/-- C4 counterexample: with k = 0 and one entry (so N >= k) the code
returns a pair with cluster 0, which does not lie in the empty range
[0, 0); and with k = 0 and no entries it throws a TypeError instead of
returning a pair per entry. -/
theorem clusterEmbeddings_k_zero_cex :
    clusterEmbeddings [] [{ id := 1, embedding := [(1 : ℝ)] }] 0 10 =
      Except.ok [⟨1, 0⟩] ∧
    ¬ ((⟨1, 0⟩ : ClusterAssignment).clusterId < 0) ∧
    clusterEmbeddings [] ([] : List ClusteringRow) 0 10 =
      Except.error "TypeError: embeddings[0] is undefined" :=
  ⟨rfl, by omega, rfl⟩

/-- C4 (amended): on an empty entry list with k = 0 clusterEmbeddings
throws a TypeError reading the first embedding; on every other input it
returns exactly one assignment per input entry, in input order; when
N < k every clusterId is 0; when N >= k and k >= 1 every clusterId lies
in [0, k) (for k = 0 and nonempty input the zero cluster ids fall outside
the empty range). The initIdx parameter is the list of k random indices
chosen by the initialization. -/
theorem clusterEmbeddings_shape (initIdx : List Nat) (entries : List ClusteringRow)
    (k maxIterations : Nat) (hk : initIdx.length = k) :
    (entries = [] → k = 0 →
      clusterEmbeddings initIdx entries k maxIterations =
        Except.error "TypeError: embeddings[0] is undefined") ∧
    (entries ≠ [] ∨ 1 ≤ k →
      ∃ A, clusterEmbeddings initIdx entries k maxIterations = Except.ok A ∧
        A.map (fun a => a.entryId) = entries.map (fun e => e.id) ∧
        (entries.length < k → ∀ a ∈ A, a.clusterId = 0) ∧
        (k ≤ entries.length → 1 ≤ k → ∀ a ∈ A, a.clusterId < k)) := by
  have hmapIdx_entryId : ∀ (g : Nat → ClusteringRow → ClusterAssignment),
      (∀ i e, (g i e).entryId = e.id) →
      (entries.mapIdx g).map (fun a => a.entryId) = entries.map (fun e => e.id) := by
    intro g hg
    rw [List.mapIdx_eq_enum_map, List.map_map]
    have hcomp : ((fun a => a.entryId) ∘ Function.uncurry g) =
        (fun e => e.id) ∘ Prod.snd := by
      funext p
      exact hg p.1 p.2
    rw [hcomp, ← List.map_map, List.enum_map_snd]
  constructor
  · rintro rfl rfl
    rfl
  intro hcase
  by_cases hlt : entries.length < k
  · simp only [clusterEmbeddings, if_pos hlt]
    refine ⟨_, rfl, ?_, ?_, ?_⟩
    · rw [List.map_map]
      rfl
    · intro _ a ha
      obtain ⟨e, _, rfl⟩ := List.mem_map.mp ha
      rfl
    · intro hke _
      omega
  · have hne : entries ≠ [] := by
      intro hnil
      rcases hcase with hx | hk1
      · exact hx hnil
      · rw [hnil] at hlt
        simp only [List.length_nil] at hlt
        omega
    have hne2 : ¬ (entries.isEmpty = true) := by
      simpa using hne
    simp only [clusterEmbeddings, if_neg hlt]
    rw [if_neg hne2]
    refine ⟨_, rfl, hmapIdx_entryId _ (fun i e => rfl), ?_, ?_⟩
    · intro h
      exact absurd h hlt
    · intro hke hk1 a ha
      rw [List.mapIdx_eq_enum_map] at ha
      obtain ⟨p, hp, rfl⟩ := List.mem_map.mp ha
      have hinv := kmeansLoop_inv (entries.map (fun e => e.embedding))
        (((entries.map (fun e => e.embedding)).headD []).length) k hk1 maxIterations
        (initIdx.map (fun idx => (entries.map (fun e => e.embedding)).getD idx []))
        (List.replicate (entries.map (fun e => e.embedding)).length 0)
        (by rw [List.length_map, hk])
        (by
          intro v hv
          rw [List.eq_of_mem_replicate hv]
          exact hk1)
        (by rw [List.length_replicate])
      set final := kmeansLoop (entries.map (fun e => e.embedding))
        (((entries.map (fun e => e.embedding)).headD []).length) maxIterations
        (initIdx.map (fun idx => (entries.map (fun e => e.embedding)).getD idx []))
        (List.replicate (entries.map (fun e => e.embedding)).length 0) with hfinal
    -- the cluster id of the produced assignment is an element of final.2 or 0
      simp only [Function.uncurry]
      rcases Nat.lt_or_ge p.1 final.2.length with hplt | hpge
      · have : final.2.getD p.1 0 ∈ final.2 := by
          rw [List.getD_eq_getElem _ _ hplt]
          exact List.getElem_mem _
        exact hinv.1 _ this
      · rw [List.getD_eq_default _ _ hpge]
        exact hk1

/-- Witness for C4: one entry, k = 1, a successful run with the entry id
preserved. -/
theorem clusterEmbeddings_shape_witness :
    ([0] : List Nat).length = 1 ∧
    (∃ A, clusterEmbeddings [0]
        [({ id := 7, embedding := [(1 : ℝ)] } : ClusteringRow)] 1 10 =
        Except.ok A ∧
      A.map (fun a => a.entryId) =
        [({ id := 7, embedding := [(1 : ℝ)] } : ClusteringRow)].map
          (fun e => e.id)) :=
  ⟨rfl,
   ((clusterEmbeddings_shape [0]
       [({ id := 7, embedding := [(1 : ℝ)] } : ClusteringRow)] 1 10 rfl).2
     (Or.inr (by omega))).imp (fun A hA => ⟨hA.1, hA.2.1⟩)⟩

/-- C5: in every iteration of the clusterEmbeddings loop, each entry is
assigned to the centroid of highest cosine similarity; the changed flag is
false exactly when the assignment pass changed nothing, in which case the
loop stops with the current state no matter how much budget remains;
otherwise the loop continues after recomputing each centroid with at least
one member as the element-wise mean of the embeddings of its members,
while a centroid with no members keeps its previous value. -/
theorem kmeans_iteration (embeddings centroids : List (List ℝ))
    (assignments : List Nat) (dims fuel : Nat)
    (hlen : assignments.length = embeddings.length)
    (hdims : ∀ x ∈ embeddings, x.length = dims) :
    (∀ i (hi : i < embeddings.length) j (hj : j < centroids.length),
      cosineSimilarity (some (embeddings.get ⟨i, hi⟩)) (some (centroids.getD j [])) ≤
        cosineSimilarity (some (embeddings.get ⟨i, hi⟩))
          (some (centroids.getD
            ((assignStep embeddings centroids assignments).1.getD i 0) []))) ∧
    ((assignStep embeddings centroids assignments).2 = false ↔
      (assignStep embeddings centroids assignments).1 = assignments) ∧
    ((assignStep embeddings centroids assignments).2 = false →
      kmeansLoop embeddings dims (fuel + 1) centroids assignments =
        (centroids, assignments)) ∧
    ((assignStep embeddings centroids assignments).2 = true →
      kmeansLoop embeddings dims (fuel + 1) centroids assignments =
        kmeansLoop embeddings dims fuel
          (updateCentroids embeddings
            (assignStep embeddings centroids assignments).1 centroids dims)
          (assignStep embeddings centroids assignments).1) ∧
    (∀ (newAssignments : List Nat) j (hj : j < centroids.length),
      (0 < (((embeddings.zip newAssignments).filter (fun p => p.2 == j)).map
          (fun p => p.1)).length →
        (updateCentroids embeddings newAssignments centroids dims).getD j [] =
          meanVec (((embeddings.zip newAssignments).filter (fun p => p.2 == j)).map
            (fun p => p.1)) dims) ∧
      ((((embeddings.zip newAssignments).filter (fun p => p.2 == j)).map
          (fun p => p.1)).length = 0 →
        (updateCentroids embeddings newAssignments centroids dims).getD j [] =
          centroids.get ⟨j, hj⟩)) := by
  have hstep1 : (assignStep embeddings centroids assignments).1 =
      embeddings.map (fun x => bestClusterFor x centroids) := rfl
  have hiff : (assignStep embeddings centroids assignments).2 = false ↔
      (assignStep embeddings centroids assignments).1 = assignments := by
    have hl : assignments.length =
        (embeddings.map (fun x => bestClusterFor x centroids)).length := by
      rw [List.length_map]
      exact hlen
    exact zip_any_ne_iff assignments _ hl
  refine ⟨?_, hiff, ?_, ?_, ?_⟩
  · intro i hi j hj
    have hilt : i < (assignStep embeddings centroids assignments).1.length := by
      rw [hstep1, List.length_map]
      exact hi
    rw [hstep1] at hilt ⊢
    rw [List.getD_eq_getElem _ _ hilt, List.getElem_map]
    have hget : embeddings.get ⟨i, hi⟩ = embeddings[i] := rfl
    rw [hget]
    exact bestClusterFor_spec embeddings[i] centroids j hj
  · intro h
    have h1 : (assignStep embeddings centroids assignments).1 = assignments := hiff.mp h
    simp only [kmeansLoop]
    rw [h, if_neg (by simp), h1]
  · intro h
    simp only [kmeansLoop]
    rw [h, if_pos rfl]
  · intro newAssignments j hj
    exact updateCentroids_spec embeddings newAssignments centroids dims hdims j hj

/-- Witness for C5: two orthogonal unit embeddings and matching centroids. -/
theorem kmeans_iteration_witness :
    ([0, 0] : List Nat).length = ([[(1 : ℝ), 0], [0, 1]] : List (List ℝ)).length ∧
    ((assignStep [[(1 : ℝ), 0], [0, 1]] [[(1 : ℝ), 0], [0, 1]] [0, 0]).2 = false ↔
      (assignStep [[(1 : ℝ), 0], [0, 1]] [[(1 : ℝ), 0], [0, 1]] [0, 0]).1 = [0, 0]) :=
  ⟨rfl,
   (kmeans_iteration [[(1 : ℝ), 0], [0, 1]] [[(1 : ℝ), 0], [0, 1]] [0, 0] 2 5 rfl
     (by intro x hx; fin_cases hx <;> rfl)).2.1⟩

theorem updateEntryClusters_only_entries :
    ∀ (clusterAssignments : List ClusterAssignment) (store : Store),
      (updateEntryClusters clusterAssignments store).folders = store.folders ∧
      (updateEntryClusters clusterAssignments store).settings = store.settings ∧
      (updateEntryClusters clusterAssignments store).nextFolderId =
        store.nextFolderId := by
  intro assignments
  induction assignments with
  | nil =>
    intro store
    simp [updateEntryClusters]
  | cons a rest ih =>
    intro store
    simp only [updateEntryClusters, List.foldl_cons] at ih ⊢
    exact ih _

theorem createClusterFolders_preserves (env : RegenEnv) :
    ∀ (groups : List (Nat × List Nat)) (store : Store),
      (createClusterFolders env groups store).1.entries = store.entries ∧
      (createClusterFolders env groups store).1.settings = store.settings := by
  intro groups
  induction groups with
  | nil =>
    intro store
    exact ⟨rfl, rfl⟩
  | cons g rest ih =>
    intro store
    obtain ⟨j, ids⟩ := g
    simp only [createClusterFolders]
    split
    · exact ih store
    · cases houtcome : env.createFolderOutcome j with
      | error e => exact ⟨rfl, rfl⟩
      | ok _ => exact ih _

theorem createClusterFolders_folders_mono (env : RegenEnv) :
    ∀ (groups : List (Nat × List Nat)) (store : Store) (f : SmartFolder),
      f ∈ store.folders → f ∈ (createClusterFolders env groups store).1.folders := by
  intro groups
  induction groups with
  | nil =>
    intro store f hf
    exact hf
  | cons g rest ih =>
    intro store f hf
    obtain ⟨j, ids⟩ := g
    simp only [createClusterFolders]
    split
    · exact ih store f hf
    · cases houtcome : env.createFolderOutcome j with
      | error e => exact hf
      | ok _ => exact ih _ f (List.mem_append_left _ hf)

theorem createClusterFolders_all_ok (env : RegenEnv)
    (hok : ∀ j, env.createFolderOutcome j = Except.ok ()) :
    ∀ (groups : List (Nat × List Nat)) (store : Store),
      (createClusterFolders env groups store).2 = Except.ok () ∧
      ∀ g ∈ groups, 2 ≤ g.2.length →
        ∃ f ∈ (createClusterFolders env groups store).1.folders,
          f.cluster_id = some g.1 ∧ f.name = labelCluster (env.labelOutcome g.1) ∧
          f.type = "cluster" := by
  intro groups
  induction groups with
  | nil =>
    intro store
    refine ⟨rfl, ?_⟩
    intro g hg
    cases hg
  | cons g rest ih =>
    intro store
    obtain ⟨j, ids⟩ := g
    simp only [createClusterFolders]
    split
    · rename_i hshort
      refine ⟨(ih store).1, ?_⟩
      intro g hg hgl
      rcases List.mem_cons.mp hg with rfl | hg
      · simp at hgl
        omega
      · exact (ih store).2 g hg hgl
    · rename_i hshort
      rw [hok j]
      refine ⟨(ih _).1, ?_⟩
      intro g hg hgl
      rcases List.mem_cons.mp hg with rfl | hg
      · refine ⟨⟨store.nextFolderId, labelCluster (env.labelOutcome j),
          "cluster", some j⟩, ?_, rfl, rfl, rfl⟩
        apply createClusterFolders_folders_mono
        exact List.mem_append_right _ (List.mem_singleton.mpr rfl)
      · exact (ih _).2 g hg hgl

theorem createClusterFolders_all_fail (env : RegenEnv) (msg : String)
    (hfail : ∀ j, env.createFolderOutcome j = Except.error msg) :
    ∀ (groups : List (Nat × List Nat)) (store : Store),
      (∃ g ∈ groups, 2 ≤ g.2.length) →
      (createClusterFolders env groups store).2 = Except.error msg := by
  intro groups
  induction groups with
  | nil =>
    intro store hg
    obtain ⟨g, hg, _⟩ := hg
    cases hg
  | cons g rest ih =>
    intro store hex
    obtain ⟨j, ids⟩ := g
    simp only [createClusterFolders]
    split
    · rename_i hshort
      apply ih store
      obtain ⟨g2, hg2, hgl⟩ := hex
      rcases List.mem_cons.mp hg2 with rfl | hg2
      · simp at hgl
        omega
      · exact ⟨g2, hg2, hgl⟩
    · rw [hfail j]

/-- C6: once a last-clustering timestamp exists (default threshold), the
code can never trigger again: getEntriesForClustering does not select
created_at, so every fetched row carries an undefined created_at, the
new-entry filter matches nothing and the count compared against the
threshold is always 0 — however many embedded entries were created after
the timestamp. -/
theorem shouldTriggerClustering_never_after_first (store : Store) (t : Int)
    (hlast : store.settings.last_clustering_date = some t)
    (hthr : store.settings.cluster_threshold = none) :
    shouldTriggerClustering store = false := by
  simp only [shouldTriggerClustering, hlast, hthr]
  have hfilter : (getEntriesForClustering store).filter
      (fun e => jsDateGt e.created_at t) = [] := by
    apply List.filter_eq_nil.mpr
    intro e he
    simp only [getEntriesForClustering] at he
    obtain ⟨x, _, rfl⟩ := List.mem_map.mp he
    simp [jsDateGt]
  rw [hfilter]
  rfl

/-- Witness for C6: ten embedded entries created strictly after the stored
timestamp, default threshold; the trigger still reports false. -/
theorem shouldTriggerClustering_never_after_first_witness :
    ({ entries := (List.range 10).map (fun i =>
          { id := i, created_at := 5, embedding := some [(1 : ℝ)] }),
       settings := { last_clustering_date := some 0 } } :
        Store).settings.last_clustering_date = some 0 ∧
    shouldTriggerClustering
      { entries := (List.range 10).map (fun i =>
          { id := i, created_at := 5, embedding := some [(1 : ℝ)] }),
        settings := { last_clustering_date := some 0 } } = false :=
  ⟨rfl,
   shouldTriggerClustering_never_after_first
     { entries := (List.range 10).map (fun i =>
         { id := i, created_at := 5, embedding := some [(1 : ℝ)] }),
       settings := { last_clustering_date := some 0 } } 0 rfl rfl⟩

theorem clusterEmbeddings_ok_of_ne_nil (initIdx : List Nat)
    (entries : List ClusteringRow) (k maxIterations : Nat)
    (hne : entries ≠ []) :
    ∃ A, clusterEmbeddings initIdx entries k maxIterations = Except.ok A := by
  simp only [clusterEmbeddings]
  by_cases hlt : entries.length < k
  · rw [if_pos hlt]
    exact ⟨_, rfl⟩
  · rw [if_neg hlt, if_neg (by simpa using hne)]
    exact ⟨_, rfl⟩

theorem regenerateClusters_run (env : RegenEnv) (nc : Option Nat) (now : Int)
    (store : Store) (A : List ClusterAssignment)
    (hfetch : env.fetchOutcome = Except.ok ())
    (h3 : ¬ (getEntriesForClustering store).length < 3)
    (hA : clusterEmbeddings env.initIdx (getEntriesForClustering store)
      (min (resolveNumClusters nc store.settings)
        ((getEntriesForClustering store).length / 2)) 10 = Except.ok A) :
    regenerateClusters env nc now store =
      match createClusterFolders env (clusterGroups A)
          (deleteClusterFolders (updateEntryClusters A store)) with
      | (s, Except.error e) => (s, Except.error e)
      | (s, Except.ok _) =>
        ({ s with settings :=
            { s.settings with last_clustering_date := some now } },
          Except.ok ()) := by
  simp only [regenerateClusters, hfetch, hA]
  rw [if_neg h3]

/-- C7: a regenerateClusters run over a store with fewer than 3 embedded
entries returns normally with the store untouched (no cluster id writes,
no folder changes, settings unchanged); with at least 3 embedded entries
the engine runs (and succeeds) at k = min(requested, floor(N/2)): the
entry table of the result is exactly the table after writing the
assignments that clusterEmbeddings produces at that k. -/
theorem regenerateClusters_noop_and_k (env : RegenEnv) (store : Store) (v : Nat)
    (now : Int) (hfetch : env.fetchOutcome = Except.ok ()) (hv : v ≠ 0) :
    ((getEntriesForClustering store).length < 3 →
      regenerateClusters env (some v) now store = (store, Except.ok ())) ∧
    (3 ≤ (getEntriesForClustering store).length →
      ∃ A, clusterEmbeddings env.initIdx (getEntriesForClustering store)
          (min v ((getEntriesForClustering store).length / 2)) 10 = Except.ok A ∧
        (regenerateClusters env (some v) now store).1.entries =
          (updateEntryClusters A store).entries) := by
  have hres : resolveNumClusters (some v) store.settings = v := by
    simp only [resolveNumClusters]
    rw [if_neg hv]
  constructor
  · intro h3
    simp only [regenerateClusters, hfetch]
    rw [if_pos h3]
  · intro h3
    have hne : getEntriesForClustering store ≠ [] := by
      intro hnil
      rw [hnil] at h3
      simp at h3
    obtain ⟨A, hA⟩ := clusterEmbeddings_ok_of_ne_nil env.initIdx
      (getEntriesForClustering store)
      (min v ((getEntriesForClustering store).length / 2)) 10 hne
    have hA2 : clusterEmbeddings env.initIdx (getEntriesForClustering store)
        (min (resolveNumClusters (some v) store.settings)
          ((getEntriesForClustering store).length / 2)) 10 = Except.ok A := by
      rw [hres]
      exact hA
    have hrun := regenerateClusters_run env (some v) now store A hfetch
      (by omega) hA2
    refine ⟨A, hA, ?_⟩
    rw [hrun]
    rcases hcf : createClusterFolders env (clusterGroups A)
      (deleteClusterFolders (updateEntryClusters A store)) with ⟨s, exc⟩
    have hs : s.entries = (updateEntryClusters A store).entries := by
      have hpres := (createClusterFolders_preserves env (clusterGroups A)
        (deleteClusterFolders (updateEntryClusters A store))).1
      rw [hcf] at hpres
      exact hpres
    cases exc with
    | error e => exact hs
    | ok u => exact hs

/-- Witness for C7: a store with a single embedded entry; the run is a
no-op. -/
theorem regenerateClusters_noop_and_k_witness :
    regenerateClusters {} (some 5) 0
        ({ entries := [{ id := 1, created_at := 0, embedding := some [(1 : ℝ)] }] } :
          Store) =
      (({ entries := [{ id := 1, created_at := 0, embedding := some [(1 : ℝ)] }] } :
          Store), Except.ok ()) :=
  (regenerateClusters_noop_and_k {}
    { entries := [{ id := 1, created_at := 0, embedding := some [(1 : ℝ)] }] }
    5 0 rfl (by decide)).1 (by decide)

/-- C8: a labelling failure never aborts a run — labelCluster catches it
and yields the placeholder, and when every folder INSERT succeeds the run
completes normally (the engine having succeeded on the nonempty entry
list) with a folder for every surviving group carrying the label
labelCluster produced for it; a fetch failure propagates with the store
untouched; a failed run leaves last_clustering_date unadvanced while the
per-entry cluster id writes performed before folder creation are kept;
and when the folder INSERT fails the error propagates. -/
theorem regenerateClusters_failure_semantics (env : RegenEnv) (store : Store)
    (nc : Option Nat) (now : Int) (msg : String) :
    labelCluster (Except.error msg) = "Untitled Topic" ∧
    (env.fetchOutcome = Except.error msg →
      regenerateClusters env nc now store = (store, Except.error msg)) ∧
    ((regenerateClusters env nc now store).2 = Except.error msg →
      (regenerateClusters env nc now store).1.settings.last_clustering_date =
        store.settings.last_clustering_date) ∧
    ((regenerateClusters env nc now store).2 = Except.error msg →
      env.fetchOutcome = Except.ok () →
      ∃ A, clusterEmbeddings env.initIdx (getEntriesForClustering store)
          (min (resolveNumClusters nc store.settings)
            ((getEntriesForClustering store).length / 2)) 10 = Except.ok A ∧
        (regenerateClusters env nc now store).1.entries =
          (updateEntryClusters A store).entries) ∧
    (env.fetchOutcome = Except.ok () →
      3 ≤ (getEntriesForClustering store).length →
      (∀ j, env.createFolderOutcome j = Except.ok ()) →
      ∃ A, clusterEmbeddings env.initIdx (getEntriesForClustering store)
          (min (resolveNumClusters nc store.settings)
            ((getEntriesForClustering store).length / 2)) 10 = Except.ok A ∧
        (regenerateClusters env nc now store).2 = Except.ok () ∧
        ∀ g ∈ clusterGroups A,
          2 ≤ g.2.length →
          ∃ f ∈ (regenerateClusters env nc now store).1.folders,
            f.cluster_id = some g.1 ∧
            f.name = labelCluster (env.labelOutcome g.1) ∧ f.type = "cluster") ∧
    (env.fetchOutcome = Except.ok () →
      3 ≤ (getEntriesForClustering store).length →
      (∀ A, clusterEmbeddings env.initIdx (getEntriesForClustering store)
          (min (resolveNumClusters nc store.settings)
            ((getEntriesForClustering store).length / 2)) 10 = Except.ok A →
        ∃ g ∈ clusterGroups A, 2 ≤ g.2.length) →
      (∀ j, env.createFolderOutcome j = Except.error msg) →
      (regenerateClusters env nc now store).2 = Except.error msg) := by
  cases hfetch : env.fetchOutcome with
  | error e =>
    have hrun : regenerateClusters env nc now store = (store, Except.error e) := by
      simp only [regenerateClusters, hfetch]
    refine ⟨rfl, ?_, ?_, ?_, ?_, ?_⟩
    · intro h
      obtain rfl : e = msg := by injection h
      exact hrun
    · intro _
      rw [hrun]
    · intro _ hok
      cases hok
    · intro hok
      cases hok
    · intro hok
      cases hok
  | ok u =>
    cases u
    by_cases h3 : (getEntriesForClustering store).length < 3
    · have hrun : regenerateClusters env nc now store = (store, Except.ok ()) := by
        simp only [regenerateClusters, hfetch]
        rw [if_pos h3]
      refine ⟨rfl, ?_, ?_, ?_, ?_, ?_⟩
      · intro h
        cases h
      · intro _
        rw [hrun]
      · intro herr
        rw [hrun] at herr
        cases herr
      · intro _ h3'
        omega
      · intro _ h3'
        omega
    · have hne : getEntriesForClustering store ≠ [] := by
        intro hnil
        rw [hnil] at h3
        simp at h3
      obtain ⟨A, hA⟩ := clusterEmbeddings_ok_of_ne_nil env.initIdx
        (getEntriesForClustering store)
        (min (resolveNumClusters nc store.settings)
          ((getEntriesForClustering store).length / 2)) 10 hne
      have hrun := regenerateClusters_run env nc now store A hfetch h3 hA
      rcases hcf : createClusterFolders env (clusterGroups A)
        (deleteClusterFolders (updateEntryClusters A store)) with ⟨s, exc⟩
      rw [hcf] at hrun
      have hsE : s.entries = (updateEntryClusters A store).entries := by
        have hpres := (createClusterFolders_preserves env (clusterGroups A)
          (deleteClusterFolders (updateEntryClusters A store))).1
        rw [hcf] at hpres
        exact hpres
      have hsS : s.settings = store.settings := by
        have hpres := (createClusterFolders_preserves env (clusterGroups A)
          (deleteClusterFolders (updateEntryClusters A store))).2
        rw [hcf] at hpres
        rw [hpres]
        exact (updateEntryClusters_only_entries A store).2.1
      have hsF : s.folders = (createClusterFolders env (clusterGroups A)
          (deleteClusterFolders (updateEntryClusters A store))).1.folders := by
        rw [hcf]
      refine ⟨rfl, ?_, ?_, ?_, ?_, ?_⟩
      · intro h
        cases h
      · intro herr
        cases exc with
        | error e =>
          rw [hrun]
          exact congrArg (fun st => st.last_clustering_date) hsS
        | ok u2 =>
          rw [hrun] at herr
          cases herr
      · intro herr _
        refine ⟨A, hA, ?_⟩
        cases exc with
        | error e =>
          rw [hrun]
          exact hsE
        | ok u2 =>
          rw [hrun] at herr
          cases herr
      · intro _ _ hok
        have hall := createClusterFolders_all_ok env hok (clusterGroups A)
          (deleteClusterFolders (updateEntryClusters A store))
        have hexc : exc = Except.ok () := by
          have h2 := hall.1
          rw [hcf] at h2
          exact h2
        subst hexc
        refine ⟨A, hA, ?_, ?_⟩
        · rw [hrun]
        · intro g hg hgl
          obtain ⟨f, hf, hprops⟩ := hall.2 g hg hgl
          refine ⟨f, ?_, hprops⟩
          rw [hrun]
          rw [hsF]
          exact hf
      · intro _ _ hex hfail
        have hfailres := createClusterFolders_all_fail env msg hfail
          (clusterGroups A) (deleteClusterFolders (updateEntryClusters A store))
          (hex A hA)
        rw [hcf] at hfailres
        subst hfailres
        rw [hrun]

/-- Witness for C8: a failing fetch propagates with the store unchanged. -/
theorem regenerateClusters_failure_semantics_witness :
    regenerateClusters { fetchOutcome := Except.error "down" } none 0
        ({ entries := [] } : Store) =
      (({ entries := [] } : Store), Except.error "down") :=
  (regenerateClusters_failure_semantics { fetchOutcome := Except.error "down" }
    { entries := [] } none 0 "down").2.1 rfl

theorem scoreOf_eq_zero (l : List Scored) (id : Nat)
    (h : ∀ r ∈ l, r.entry.id ≠ id) : scoreOf l id = 0 := by
  have hfind : l.find? (fun r => r.entry.id == id) = none :=
    List.find?_eq_none.mpr (fun x hx => by simpa using h x hx)
  simp [scoreOf, hfind]

theorem scoreOf_mem (l : List Scored)
    (hnodup : (l.map (fun r => r.entry.id)).Nodup) :
    ∀ r ∈ l, scoreOf l r.entry.id = r.score := by
  induction l with
  | nil =>
    intro r hr
    cases hr
  | cons a t ih =>
    intro r hr
    simp only [List.map_cons, List.nodup_cons] at hnodup
    rcases List.mem_cons.mp hr with rfl | hr
    · simp [scoreOf, List.find?_cons_of_pos]
    · have hne : ¬ (a.entry.id == r.entry.id) = true := by
        simp only [beq_iff_eq]
        intro heq
        exact hnodup.1 (heq ▸ List.mem_map_of_mem (fun x => x.entry.id) hr)
      have hfind : List.find? (fun x => x.entry.id == r.entry.id) (a :: t) =
          List.find? (fun x => x.entry.id == r.entry.id) t :=
        List.find?_cons_of_neg _ hne
      simp only [scoreOf, hfind]
      exact ih hnodup.2 r hr

theorem scoreOf_append_right (P : List Scored) (q : Scored)
    (h : ∀ r ∈ P, r.entry.id ≠ q.entry.id) :
    scoreOf (P ++ [q]) q.entry.id = q.score := by
  induction P with
  | nil => simp [scoreOf, List.find?_cons_of_pos]
  | cons a t ih =>
    have hne : ¬ (a.entry.id == q.entry.id) = true := by
      simpa using h a (List.mem_cons_self a t)
    have hfind : List.find? (fun r => r.entry.id == q.entry.id) (a :: (t ++ [q])) =
        List.find? (fun r => r.entry.id == q.entry.id) (t ++ [q]) :=
      List.find?_cons_of_neg _ hne
    simp only [List.cons_append, scoreOf, hfind]
    exact ih (fun r hr => h r (List.mem_cons_of_mem a hr))

theorem scoreOf_append_ne (P : List Scored) (q : Scored) (id : Nat)
    (h : id ≠ q.entry.id) : scoreOf (P ++ [q]) id = scoreOf P id := by
  induction P with
  | nil =>
    have hne : ¬ (q.entry.id == id) = true := by
      simpa using fun heq => h heq.symm
    have hfind : List.find? (fun r => r.entry.id == id) ([] ++ [q]) = none := by
      rw [List.nil_append]
      exact List.find?_eq_none.mpr (fun x hx => by
        rw [List.mem_singleton.mp hx]
        exact hne)
    simp only [List.nil_append] at hfind
    simp [scoreOf, hfind]
  | cons a t ih =>
    by_cases ha : (a.entry.id == id) = true
    · have h1 : List.find? (fun r => r.entry.id == id) (a :: (t ++ [q])) = some a :=
        List.find?_cons_of_pos _ ha
      have h2 : List.find? (fun r => r.entry.id == id) (a :: t) = some a :=
        List.find?_cons_of_pos _ ha
      simp [scoreOf, h1, h2]
    · have h1 : List.find? (fun r => r.entry.id == id) (a :: (t ++ [q])) =
          List.find? (fun r => r.entry.id == id) (t ++ [q]) :=
        List.find?_cons_of_neg _ ha
      have h2 : List.find? (fun r => r.entry.id == id) (a :: t) =
          List.find? (fun r => r.entry.id == id) t :=
        List.find?_cons_of_neg _ ha
      simp only [List.cons_append, scoreOf, h1, h2]
      exact ih

theorem mapSet_not_mem (m : List CombinedResult) (v : CombinedResult)
    (h : ∀ x ∈ m, x.entry.id ≠ v.entry.id) : mapSet m v = m ++ [v] := by
  have hany : ¬ m.any (fun x => decide (x.entry.id = v.entry.id)) = true := by
    simp only [List.any_eq_true, decide_eq_true_eq, not_exists, not_and]
    exact h
  simp only [mapSet]
  rw [if_neg hany]

theorem semFold_eq (semanticWeight : ℝ) :
    ∀ (sem : List Scored) (acc : List CombinedResult),
      ((sem.map (fun r => r.entry.id)).Nodup) →
      (∀ x ∈ acc, ∀ r ∈ sem, x.entry.id ≠ r.entry.id) →
      sem.foldl (semInsert semanticWeight) acc =
        acc ++ sem.map (fun r => ⟨r.entry, r.score, r.score, 0,
          r.score * semanticWeight⟩) := by
  intro sem
  induction sem with
  | nil =>
    intro acc _ _
    simp
  | cons r rest ih =>
    intro acc hnodup hdisj
    simp only [List.map_cons, List.nodup_cons] at hnodup
    rw [List.foldl_cons]
    have hstep : semInsert semanticWeight acc r =
        acc ++ [⟨r.entry, r.score, r.score, 0, r.score * semanticWeight⟩] :=
      mapSet_not_mem acc _ (fun x hx => hdisj x hx r (List.mem_cons_self r rest))
    rw [hstep, ih _ hnodup.2 ?hdisj2, List.append_assoc]
    · rfl
    case hdisj2 =>
      intro x hx r2 hr2
      rcases List.mem_append.mp hx with hx | hx
      · exact hdisj x hx r2 (List.mem_cons_of_mem r hr2)
      · rw [List.mem_singleton.mp hx]
        intro heq
        exact hnodup.1 (heq ▸ List.mem_map_of_mem (fun x => x.entry.id) hr2)

theorem semFold_inv (sem : List Scored) (semanticWeight keywordWeight : ℝ)
    (hnodup : (sem.map (fun r => r.entry.id)).Nodup) :
    CombineInv sem [] semanticWeight keywordWeight
      (sem.foldl (semInsert semanticWeight) []) := by
  rw [semFold_eq semanticWeight sem [] hnodup (fun x hx => absurd hx (List.not_mem_nil x)),
    List.nil_append]
  refine ⟨?_, ?_, ?_⟩
  · rw [List.map_map]
    have hcomp : ((fun c : CombinedResult => c.entry.id) ∘
        (fun r : Scored => (⟨r.entry, r.score, r.score, 0,
          r.score * semanticWeight⟩ : CombinedResult))) =
        fun r : Scored => r.entry.id := rfl
    rw [hcomp]
    exact hnodup
  · intro id
    rw [List.map_map]
    constructor
    · intro hid
      exact Or.inl (by simpa using hid)
    · rintro (hid | hid)
      · simpa using hid
      · simp at hid
  · intro c hc
    obtain ⟨r, hr, rfl⟩ := List.mem_map.mp hc
    refine ⟨(scoreOf_mem sem hnodup r hr).symm, ?_, by ring⟩
    simp [scoreOf]

theorem kwMergeStep_inv (sem P : List Scored) (ws wk : ℝ)
    (acc : List CombinedResult) (q : Scored)
    (hinv : CombineInv sem P ws wk acc)
    (hqP : ∀ r ∈ P, r.entry.id ≠ q.entry.id) :
    CombineInv sem (P ++ [q]) ws wk (kwMergeStep ws wk acc q) := by
  obtain ⟨hnodup, hiff, hvals⟩ := hinv
  have hPids : ∀ id : Nat, id ∈ (P ++ [q]).map (fun r => r.entry.id) ↔
      (id ∈ P.map (fun r => r.entry.id) ∨ id = q.entry.id) := by
    intro id
    simp [List.mem_append, eq_comm]
  by_cases hany : ∃ x ∈ acc, x.entry.id = q.entry.id
  · have hanyb : (acc.any fun x => decide (x.entry.id = q.entry.id)) = true := by
      rw [List.any_eq_true]
      obtain ⟨x, hx, hxe⟩ := hany
      exact ⟨x, hx, by simpa using hxe⟩
    simp only [kwMergeStep]
    rw [if_pos hanyb]
    have hid : ∀ x : CombinedResult,
        ((if x.entry.id = q.entry.id then
            { x with keywordScore := q.score,
                     combinedScore := x.semanticScore * ws + q.score * wk }
          else x) : CombinedResult).entry = x.entry := by
      intro x
      by_cases hx : x.entry.id = q.entry.id <;> simp [hx]
    have hids : (acc.map (fun x =>
        if x.entry.id = q.entry.id then
          { x with keywordScore := q.score,
                   combinedScore := x.semanticScore * ws + q.score * wk }
        else x)).map (fun c => c.entry.id) = acc.map (fun c => c.entry.id) := by
      rw [List.map_map]
      apply List.map_congr_left
      intro x _
      simp only [Function.comp_apply]
      rw [hid x]
    refine ⟨?_, ?_, ?_⟩
    · rw [hids]
      exact hnodup
    · intro id
      rw [hids, hPids id]
      rw [hiff id]
      constructor
      · rintro (hs | hp)
        · exact Or.inl hs
        · exact Or.inr (Or.inl hp)
      · rintro (hs | hp | rfl)
        · exact Or.inl hs
        · exact Or.inr hp
        · obtain ⟨x, hx, hxe⟩ := hany
          have hqin : q.entry.id ∈ acc.map (fun c => c.entry.id) :=
            hxe ▸ List.mem_map_of_mem (fun c => c.entry.id) hx
          exact (hiff q.entry.id).mp hqin
    · intro c hc
      obtain ⟨x, hx, rfl⟩ := List.mem_map.mp hc
      obtain ⟨hxs, hxk, hxc⟩ := hvals x hx
      by_cases hxq : x.entry.id = q.entry.id
      · simp only [if_pos hxq]
        refine ⟨hxs, ?_, by trivial⟩
        rw [hxq]
        exact (scoreOf_append_right P q hqP).symm
      · simp only [if_neg hxq]
        exact ⟨hxs, by rw [hxk, scoreOf_append_ne P q _ hxq], hxc⟩
  · have hanyb : ¬ (acc.any fun x => decide (x.entry.id = q.entry.id)) = true := by
      rw [List.any_eq_true]
      rintro ⟨x, hx, hxe⟩
      exact hany ⟨x, hx, by simpa using hxe⟩
    have hqsem : q.entry.id ∉ sem.map (fun r => r.entry.id) := by
      intro hmem
      have := (hiff q.entry.id).mpr (Or.inl hmem)
      obtain ⟨x, hx, hxe⟩ := List.mem_map.mp this
      exact hany ⟨x, hx, hxe⟩
    have hqacc : q.entry.id ∉ acc.map (fun c => c.entry.id) := by
      intro hmem
      obtain ⟨x, hx, hxe⟩ := List.mem_map.mp hmem
      exact hany ⟨x, hx, hxe⟩
    simp only [kwMergeStep]
    rw [if_neg hanyb]
    refine ⟨?_, ?_, ?_⟩
    · rw [List.map_append]
      rw [List.nodup_append]
      refine ⟨hnodup, List.nodup_singleton _, ?_⟩
      intro a ha hb
      simp only [List.map_cons, List.map_nil, List.mem_singleton] at hb
      rw [hb] at ha
      exact hqacc ha
    · intro id
      rw [List.map_append, List.mem_append, hPids id, hiff id]
      simp only [List.map_cons, List.map_nil, List.mem_singleton]
      tauto
    · intro c hc
      rcases List.mem_append.mp hc with hc | hc
      · obtain ⟨hcs, hck, hcc⟩ := hvals c hc
        have hcq : c.entry.id ≠ q.entry.id := by
          intro heq
          exact hany ⟨c, hc, heq⟩
        exact ⟨hcs, by rw [hck, scoreOf_append_ne P q _ hcq], hcc⟩
      · rw [List.mem_singleton.mp hc]
        refine ⟨?_, ?_, by ring⟩
        · exact (scoreOf_eq_zero sem q.entry.id (fun r hr heq =>
            hqsem (heq ▸ List.mem_map_of_mem (fun r => r.entry.id) hr))).symm
        · exact (scoreOf_append_right P q hqP).symm

theorem kwFold_inv (sem : List Scored) (ws wk : ℝ) :
    ∀ (rest P : List Scored) (acc : List CombinedResult),
      CombineInv sem P ws wk acc →
      ((P ++ rest).map (fun r => r.entry.id)).Nodup →
      CombineInv sem (P ++ rest) ws wk
        (rest.foldl (kwMergeStep ws wk) acc) := by
  intro rest
  induction rest with
  | nil =>
    intro P acc hinv _
    simpa using hinv
  | cons q rest ih =>
    intro P acc hinv hnodup
    rw [List.foldl_cons]
    have hqP : ∀ r ∈ P, r.entry.id ≠ q.entry.id := by
      intro r hr heq
      rw [List.map_append, List.nodup_append] at hnodup
      exact hnodup.2.2 (List.mem_map_of_mem _ hr)
        (by
          rw [heq]
          exact List.mem_map_of_mem _ (List.mem_cons_self q rest))
    have hstep := kwMergeStep_inv sem P ws wk acc q hinv hqP
    have happ : P ++ q :: rest = (P ++ [q]) ++ rest := by simp
    rw [happ]
    exact ih (P ++ [q]) (kwMergeStep ws wk acc q) hstep (by rw [← happ]; exact hnodup)

theorem combinedDescLe_trans : ∀ a b c : CombinedResult,
    combinedDescLe a b = true → combinedDescLe b c = true →
    combinedDescLe a c = true := by
  intro a b c h1 h2
  simp only [combinedDescLe, decide_eq_true_eq] at h1 h2 ⊢
  linarith

theorem combinedDescLe_total : ∀ a b : CombinedResult,
    (combinedDescLe a b || combinedDescLe b a) = true := by
  intro a b
  simp only [combinedDescLe, Bool.or_eq_true, decide_eq_true_eq]
  exact le_total b.combinedScore a.combinedScore

/-- Characterization of combineResults when the legs carry no duplicate
entry ids: ids are unique, an id appears exactly when some leg carries it,
every element holds its two leg scores and the weighted combined score,
and the output is sorted by combined score descending. -/
theorem combineResults_spec (sem kw : List Scored) (ws wk : ℝ)
    (hsem : (sem.map (fun r => r.entry.id)).Nodup)
    (hkw : (kw.map (fun r => r.entry.id)).Nodup) :
    ((combineResults sem kw ws wk).map (fun c => c.entry.id)).Nodup ∧
    (∀ id : Nat, id ∈ (combineResults sem kw ws wk).map (fun c => c.entry.id) ↔
      (id ∈ sem.map (fun r => r.entry.id) ∨ id ∈ kw.map (fun r => r.entry.id))) ∧
    (∀ c ∈ combineResults sem kw ws wk,
      c.semanticScore = scoreOf sem c.entry.id ∧
      c.keywordScore = scoreOf kw c.entry.id ∧
      c.combinedScore = c.semanticScore * ws + c.keywordScore * wk) ∧
    List.Sorted (fun a b : CombinedResult => b.combinedScore ≤ a.combinedScore)
      (combineResults sem kw ws wk) := by
  have hafter := kwFold_inv sem ws wk kw [] (sem.foldl (semInsert ws) [])
    (semFold_inv sem ws wk hsem) (by simpa using hkw)
  rw [List.nil_append] at hafter
  obtain ⟨hnodupA, hiffA, hvalsA⟩ := hafter
  have heq : combineResults sem kw ws wk =
      (kw.foldl (kwMergeStep ws wk) (sem.foldl (semInsert ws) [])).mergeSort
        combinedDescLe := rfl
  have hperm := List.mergeSort_perm
    (kw.foldl (kwMergeStep ws wk) (sem.foldl (semInsert ws) [])) combinedDescLe
  refine ⟨?_, ?_, ?_, ?_⟩
  · rw [heq]
    exact (List.Perm.nodup_iff (hperm.map (fun c => c.entry.id))).mpr hnodupA
  · intro id
    rw [heq]
    rw [List.Perm.mem_iff (hperm.map (fun c => c.entry.id))]
    exact hiffA id
  · intro c hc
    rw [heq, List.mem_mergeSort] at hc
    exact hvalsA c hc
  · rw [heq]
    have hsorted := List.sorted_mergeSort combinedDescLe_trans combinedDescLe_total
      (kw.foldl (kwMergeStep ws wk) (sem.foldl (semInsert ws) []))
    exact hsorted.imp (fun {a b} hab => by
      simpa [combinedDescLe] using hab)

theorem semLeg_ids_nodup (query : String) (qe : Option (List ℝ))
    (provider : Except String (List ℝ)) (db : List JournalEntry)
    (hdb : (db.map (fun e => e.id)).Nodup) :
    ((performSemanticSearch query qe provider db).map (fun r => r.entry.id)).Nodup := by
  by_cases hb : jsBlank query = true
  · simp [performSemanticSearch, hb]
  · simp only [performSemanticSearch]
    rw [if_neg hb]
    split
    · simp
    · rename_i emb heq
      set entries := (db.filter (fun e => e.embedding.isSome)).mergeSort createdDescLe
        with hentries
      by_cases hlen : entries.length = 0
      · rw [if_pos hlen]
        simp
      · rw [if_neg hlen]
        have h1 : ((db.filter (fun e => e.embedding.isSome)).map
            (fun e => e.id)).Nodup :=
          List.Nodup.sublist (List.Sublist.map _ (List.filter_sublist _)) hdb
        have h2 : (entries.map (fun e => e.id)).Nodup := by
          rw [hentries]
          exact (List.Perm.nodup_iff ((List.mergeSort_perm _ _).map _)).mpr h1
        have h3 : ((entries.map (fun e =>
            Scored.mk e (cosineSimilarity (some emb) e.embedding) "semantic")).map
            (fun r => r.entry.id)).Nodup := by
          rw [List.map_map]
          exact h2
        exact (List.Perm.nodup_iff ((List.mergeSort_perm _ _).map _)).mpr h3

theorem kwLeg_ids_nodup (query : String) (db : List JournalEntry)
    (hdb : (db.map (fun e => e.id)).Nodup) :
    ((performKeywordSearch query db).map (fun r => r.entry.id)).Nodup := by
  by_cases hb : jsBlank query = true
  · simp [performKeywordSearch, hb]
  · simp only [performKeywordSearch]
    rw [if_neg hb]
    rw [List.map_map]
    have h1 : ((db.filter (anyFieldMatch (jsToLower query))).map
        (fun e => e.id)).Nodup :=
      List.Nodup.sublist (List.Sublist.map _ (List.filter_sublist _)) hdb
    exact (List.Perm.nodup_iff ((List.mergeSort_perm _ _).map _)).mpr h1

/-- C1: hybrid score fusion. Over any two leg result lists without
duplicate entry ids, every fused entry carries combined score
semanticScore*semanticWeight + keywordScore*keywordWeight, where a leg
missing the entry contributes 0 (entries present in a single leg are
included); the fused list is sorted by combined score descending. The
hybrid searchEntries pipeline then returns exactly this fused list of its
two legs filtered to combined scores of at least minScore and truncated to
at most maxResults, preserving the descending order. -/
theorem hybridSearch_fusion_spec
    (sem kw : List Scored) (ws wk : ℝ)
    (hsem : (sem.map (fun r => r.entry.id)).Nodup)
    (hkw : (kw.map (fun r => r.entry.id)).Nodup)
    (query : String) (o : SearchOptions) (provider : Except String (List ℝ))
    (db : List JournalEntry)
    (hdb : (db.map (fun e => e.id)).Nodup)
    (hq : jsBlank query = false)
    (hmode : (mergeConfig o).mode = "hybrid")
    (hmax : (mergeConfig o).maxResults ≠ 0) :
    (∀ c ∈ combineResults sem kw ws wk,
      c.combinedScore = scoreOf sem c.entry.id * ws + scoreOf kw c.entry.id * wk) ∧
    (∀ id : Nat, id ∈ (combineResults sem kw ws wk).map (fun c => c.entry.id) ↔
      (id ∈ sem.map (fun r => r.entry.id) ∨ id ∈ kw.map (fun r => r.entry.id))) ∧
    List.Sorted (fun a b : CombinedResult => b.combinedScore ≤ a.combinedScore)
      (combineResults sem kw ws wk) ∧
    (∃ l, searchEntries query o provider db = Except.ok l ∧
      List.Sorted (fun a b : CombinedResult => b.combinedScore ≤ a.combinedScore) l ∧
      (∀ r ∈ l, (mergeConfig o).minScore ≤ r.combinedScore) ∧
      l.length ≤ (mergeConfig o).maxResults ∧
      (∀ r ∈ l, r ∈ combineResults (performSemanticSearch query none provider db)
        (performKeywordSearch query db) (mergeConfig o).semanticWeight
        (mergeConfig o).keywordWeight) ∧
      (((combineResults (performSemanticSearch query none provider db)
            (performKeywordSearch query db) (mergeConfig o).semanticWeight
            (mergeConfig o).keywordWeight).filter
          (fun r => decide ((mergeConfig o).minScore ≤ r.combinedScore))).length ≤
          (mergeConfig o).maxResults →
        ∀ c ∈ combineResults (performSemanticSearch query none provider db)
            (performKeywordSearch query db) (mergeConfig o).semanticWeight
            (mergeConfig o).keywordWeight,
          (mergeConfig o).minScore ≤ c.combinedScore → c ∈ l)) := by
  obtain ⟨hnodupC, hiffC, hvalsC, hsortedC⟩ := combineResults_spec sem kw ws wk hsem hkw
  refine ⟨?_, hiffC, hsortedC, ?_⟩
  · intro c hc
    obtain ⟨h1, h2, h3⟩ := hvalsC c hc
    rw [h3, h1, h2]
  · obtain ⟨hnodupL, hiffL, hvalsL, hsortedL⟩ :=
      combineResults_spec (performSemanticSearch query none provider db)
        (performKeywordSearch query db) (mergeConfig o).semanticWeight
        (mergeConfig o).keywordWeight
        (semLeg_ids_nodup query none provider db hdb)
        (kwLeg_ids_nodup query db hdb)
    have hrun : searchEntries query o provider db = Except.ok
        (((combineResults (performSemanticSearch query none provider db)
            (performKeywordSearch query db) (mergeConfig o).semanticWeight
            (mergeConfig o).keywordWeight).filter
          (fun r => decide ((mergeConfig o).minScore ≤ r.combinedScore))).take
          (mergeConfig o).maxResults) := by
      have hq2 : ¬ (jsBlank query = true) := by
        rw [hq]
        simp
      have hm1 : ¬ ((mergeConfig o).mode = "semantic") := by
        rw [hmode]
        decide
      have hm2 : ¬ ((mergeConfig o).mode = "keyword") := by
        rw [hmode]
        decide
      simp only [searchEntries]
      rw [if_neg hq2, if_neg hm1, if_neg hm2, if_pos hmax]
    refine ⟨_, hrun, ?_, ?_, ?_, ?_, ?_⟩
    · exact ((hsortedL.filter _).sublist (List.take_sublist _ _))
    · intro r hr
      have hr2 := List.take_subset _ _ hr
      have := (List.mem_filter.mp hr2).2
      simpa using this
    · rw [List.length_take]
      exact min_le_left _ _
    · intro r hr
      exact List.mem_of_mem_filter (List.take_subset _ _ hr)
    · intro hlenle c hc hcs
      rw [List.take_of_length_le hlenle]
      exact List.mem_filter.mpr ⟨hc, by simpa using hcs⟩

/-- Witness for C1: empty legs and an empty store with the default
configuration. -/
theorem hybridSearch_fusion_spec_witness :
    jsBlank "hi" = false ∧
    (mergeConfig {}).mode = "hybrid" ∧
    (mergeConfig {}).maxResults ≠ 0 ∧
    List.Sorted (fun a b : CombinedResult => b.combinedScore ≤ a.combinedScore)
      (combineResults [] [] 0.6 0.4) :=
  ⟨by decide, rfl, by decide,
   (hybridSearch_fusion_spec [] [] 0.6 0.4 (by simp) (by simp) "hi" {}
     (Except.error "x") [] (by simp) (by decide) rfl (by decide)).2.2.1⟩

/-- C2 counterexample: with one embedded entry stored and a failing
embedding provider, the semantic search call does not propagate an error:
the failure is caught inside performSemanticSearch and a semantic-mode
search returns a successful empty result set. -/
theorem semanticSearch_error_swallowed_cex :
    performSemanticSearch "hello" none (Except.error "provider down")
        [{ id := 1, created_at := 0, embedding := some [(1 : ℝ)] }] = [] ∧
    searchEntries "hello" { mode := some "semantic" } (Except.error "provider down")
        [{ id := 1, created_at := 0, embedding := some [(1 : ℝ)] }] =
      Except.ok [] :=
  ⟨rfl, rfl⟩

/-- C2 (amended): for every non-blank query, a provider failure while
computing the query embedding is caught inside performSemanticSearch
(which logs it and returns the empty list), so a semantic-mode
searchEntries call silently returns a successful empty result set instead
of propagating the error. -/
theorem semanticSearch_swallows_provider_error (query : String)
    (db : List JournalEntry) (e : String) (o : SearchOptions)
    (hq : jsBlank query = false)
    (hmode : (mergeConfig o).mode = "semantic") :
    performSemanticSearch query none (Except.error e) db = [] ∧
    searchEntries query o (Except.error e) db = Except.ok [] := by
  have hq2 : ¬ (jsBlank query = true) := by
    rw [hq]
    simp
  have h1 : performSemanticSearch query none (Except.error e) db = [] := by
    simp only [performSemanticSearch]
    rw [if_neg hq2]
  refine ⟨h1, ?_⟩
  simp only [searchEntries]
  rw [if_neg hq2, if_pos hmode, h1]
  simp

/-- Witness for C2: concrete semantic-mode search with a failing
provider. -/
theorem semanticSearch_swallows_provider_error_witness :
    jsBlank "hello" = false ∧
    searchEntries "hello" { mode := some "semantic" } (Except.error "down")
        [{ id := 2, created_at := 3, embedding := some [(1 : ℝ), 2] }] =
      Except.ok [] :=
  ⟨by decide,
   (semanticSearch_swallows_provider_error "hello"
     [{ id := 2, created_at := 3, embedding := some [(1 : ℝ), 2] }] "down"
     { mode := some "semantic" } (by decide) rfl).2⟩

/-- C10: searchEntries treats every mode other than semantic and keyword
exactly as hybrid mode (the default branch of the switch), and such a
search never fails. -/
theorem searchEntries_unknown_mode (query : String) (o : SearchOptions)
    (provider : Except String (List ℝ)) (db : List JournalEntry)
    (hm1 : (mergeConfig o).mode ≠ "semantic")
    (hm2 : (mergeConfig o).mode ≠ "keyword") :
    searchEntries query o provider db =
      searchEntries query { o with mode := some "hybrid" } provider db ∧
    ∃ l, searchEntries query o provider db = Except.ok l := by
  have hmode2 : (mergeConfig { o with mode := some "hybrid" }).mode = "hybrid" := rfl
  constructor
  · by_cases hb : jsBlank query = true
    · simp [searchEntries, hb]
    · simp only [searchEntries]
      rw [if_neg hb, if_neg hb, if_neg hm1, if_neg hm2]
      have hm1x : ¬ ((mergeConfig { o with mode := some "hybrid" }).mode =
          "semantic") := by
        rw [hmode2]
        decide
      have hm2x : ¬ ((mergeConfig { o with mode := some "hybrid" }).mode =
          "keyword") := by
        rw [hmode2]
        decide
      rw [if_neg hm1x, if_neg hm2x]
      rfl
  · by_cases hb : jsBlank query = true
    · exact ⟨[], by simp [searchEntries, hb]⟩
    · simp only [searchEntries]
      rw [if_neg hb, if_neg hm1, if_neg hm2]
      exact ⟨_, rfl⟩

/-- Witness for C10: the unrecognized mode fuzzy is accepted and
succeeds. -/
theorem searchEntries_unknown_mode_witness :
    (mergeConfig { mode := some "fuzzy" }).mode ≠ "semantic" ∧
    ∃ l, searchEntries "hi" { mode := some "fuzzy" } (Except.error "x") [] =
      Except.ok l :=
  ⟨by decide,
   (searchEntries_unknown_mode "hi" { mode := some "fuzzy" }
     (Except.error "x") [] (by decide) (by decide)).2⟩

end

